import Mathlib

/-!
# static-response-plugin: the rule compiler and the dispatch engine

A shallow embedding of `static_response.go` (package `static_response_plugin`).

* Go strings and byte slices are Lean strings; the code only compares them,
  tests them for the one-byte suffix "\n" and appends to them, operations on
  which bytes and characters agree.
* `Path.compile` mutates its receiver and returns an error; here it returns
  the mutated rule on success (`Result.ok`), the error text (`Result.error`),
  or the text of a run-time abort (`Result.panic`).
* `ServeHTTP` talks to two interfaces, the response writer and the next
  handler; here it returns the sequence of calls it makes on them
  (`Effect`), which `ResponseRecorder.play` then applies to a sink.
* The Go standard library (regexp, text/template, encoding/json) is a
  parameter, `Lib`.
* `New` is a pure function of the configuration; `NewOnMemory` runs the same
  loop on the memory of the caller, to state what the call leaves there.
-/

set_option autoImplicit false
set_option linter.dupNamespace false

namespace StaticResponsePlugin

/-! ## Results of fallible code -/

/-- Outcome of a Go function returning `(value, error)`: the value, the error
text, or the text of a run-time abort. -/
inductive Result (α : Type) where
  | ok (v : α)
  | error (msg : String)
  | panic (msg : String)

/-- The value on success. -/
def Result.value? {α : Type} : Result α → Option α
  | .ok v => some v
  | _ => none

/-- The error text when the function returned an error. -/
def Result.error? {α : Type} : Result α → Option String
  | .error msg => some msg
  | _ => none

/-- True when the function returned an error (and so a nil value). -/
def Result.isError {α : Type} : Result α → Bool
  | .error _ => true
  | _ => false

/-- True when the function did not return but aborted. -/
def Result.isPanic {α : Type} : Result α → Bool
  | .panic _ => true
  | _ => false

/-! ## Strings -/

/-- Go `strings.HasSuffix`. -/
def HasSuffix (s suffix : String) : Bool :=
  suffix.data.isSuffixOf s.data

/-- Go `strings.Repeat`: aborts on a negative count. -/
def Repeat (s : String) (count : Int) : Result String :=
  if count < 0 then .panic "strings: negative Repeat count"
  else .ok (String.join (List.replicate count.toNat s))

/-! ## Requests -/

/-- Go `url.URL`, the part that is read. -/
structure URL where
  Path : String
  RawQuery : String := ""

/-- Go `http.Request`, the part that is read. -/
structure Request where
  Method : String := "GET"
  URL : URL
  Host : String := ""

/-- Data handed to the template: `map[string]any` with the single key "Request". -/
abbrev TemplateData := List (String × Request)

/-! ## The standard library, as a parameter -/

/-- Library operations the plugin calls. `A` is the type of the values of a
`map[string]any`, `R` of compiled regular expressions, `T` of parsed
templates. -/
structure Lib (A R T : Type) where
  /-- Go `regexp.Compile`. -/
  regexpCompile : String → Except String R
  /-- Go `(*Regexp).MatchString`. -/
  matchString : R → String → Bool
  /-- Go `template.New(name).Parse(text)`. -/
  templateParse : String → String → Except String T
  /-- Go `(*Template).Execute`: the chunks written to the writer, in order, and the
  error returned, if any. -/
  templateExecute : T → TemplateData → List String × Option String
  /-- Go `json.Marshal`. -/
  jsonMarshal : List (String × A) → Except String String
  /-- Go `json.MarshalIndent`, arguments: value, line lead, indent. -/
  jsonMarshalIndent : List (String × A) → String → String → Except String String

/-- The text holds no left delimiter of the template language, so it is literal text
without any action. -/
def ActionFree (text : String) : Prop :=
  ¬ ("\x7b\x7b".data <:+: text.data)

instance (text : String) : Decidable (ActionFree text) := by
  unfold ActionFree; infer_instance

/-- Documented behaviour of text/template on literal text: a non-empty text without
actions parses, and executing it writes the text unchanged, in one write, without error. -/
def Lib.LiteralText {A R T : Type} (lib : Lib A R T) : Prop :=
  ∀ name text : String, text ≠ "" → ActionFree text →
    ∃ t, lib.templateParse name text = .ok t ∧
      ∀ data, lib.templateExecute t data = ([text], none)

/-! ## Data model -/

/-- Go `Path`: a path configuration, with its compiled fields. -/
structure Path (A R T : Type) where
  Path : String := ""
  PathRegex : String := ""
  Content : String := ""
  JSONData : List (String × A) := []
  Indent : Int := 0
  Status : Int := 0
  pathRegex : Option R := none
  template : Option T := none
  jsonData : String := ""

/-- Go `Config`. -/
structure Config (A R T : Type) where
  Paths : List (Path A R T)

/-- Go `CreateConfig`. -/
def CreateConfig {A R T : Type} : Config A R T :=
  { Paths := [] }

/-! ## The response sink -/

/-- One call made by `ServeHTTP` on the response writer or on the next handler. -/
inductive Effect where
  /-- Call `rw.WriteHeader(code)`. -/
  | WriteHeader (code : Int)
  /-- Call `rw.Header().Set(key, value)`. -/
  | HeaderSet (key value : String)
  /-- Call `rw.Header().Del(key)`. -/
  | HeaderDel (key : String)
  /-- Call `rw.Write(b)`. -/
  | Write (b : String)
  /-- Call `next.ServeHTTP(rw, req)`. -/
  | Next (req : Request)
  /-- Run-time abort. -/
  | Abort (msg : String)

/-- True for a call on the response writer. -/
def Effect.isSink : Effect → Bool
  | .WriteHeader _ => true
  | .HeaderSet _ _ => true
  | .HeaderDel _ => true
  | .Write _ => true
  | .Next _ => false
  | .Abort _ => false

/-- The bytes of a body write. -/
def Effect.written? : Effect → Option String
  | .Write b => some b
  | _ => none

/-- Response sink following the documented contract of `http.ResponseWriter`, as
`httptest.ResponseRecorder` implements it: the first `WriteHeader` or `Write`
commits the status and a snapshot of the header map, later status writes are
ignored and later header changes do not reach the response. Content-type
detection and status code validation by the sink are left out. -/
structure ResponseRecorder where
  Code : Int := 200
  HeaderMap : List (String × String) := []
  Body : String := ""
  wroteHeader : Bool := false
  snapHeader : List (String × String) := []

/-- Go `httptest.NewRecorder`. -/
def NewRecorder : ResponseRecorder := {}

/-- Go `rw.Header().Del(key)`. -/
def ResponseRecorder.Del (rw : ResponseRecorder) (key : String) : ResponseRecorder :=
  { rw with HeaderMap := rw.HeaderMap.filter (fun kv => kv.1 != key) }

/-- Go `rw.Header().Set(key, value)`. -/
def ResponseRecorder.Set (rw : ResponseRecorder) (key value : String) : ResponseRecorder :=
  { rw with HeaderMap := (key, value) :: rw.HeaderMap.filter (fun kv => kv.1 != key) }

/-- Go `rw.WriteHeader(code)`. -/
def ResponseRecorder.WriteHeader (rw : ResponseRecorder) (code : Int) : ResponseRecorder :=
  if rw.wroteHeader then rw
  else { rw with Code := code, wroteHeader := true, snapHeader := rw.HeaderMap }

/-- Go `rw.Write(b)`: commits status 200 when nothing was committed yet. -/
def ResponseRecorder.Write (rw : ResponseRecorder) (b : String) : ResponseRecorder :=
  let rw1 := rw.WriteHeader 200
  { rw1 with Body := rw1.Body ++ b }

/-- Headers of the response (`Result().Header`). -/
def ResponseRecorder.ResultHeader (rw : ResponseRecorder) : List (String × String) :=
  if rw.wroteHeader then rw.snapHeader else rw.HeaderMap

/-- Go `Header.Get` on the response headers. -/
def ResponseRecorder.Get (rw : ResponseRecorder) (key : String) : Option String :=
  (rw.ResultHeader.find? (fun kv => kv.1 == key)).map (fun kv => kv.2)

/-- Go `http.Handler`, as a transformer of the sink. -/
abbrev Handler := ResponseRecorder → Request → ResponseRecorder

/-- Apply a sequence of calls to a sink; an abort stops the sequence. -/
def ResponseRecorder.play (next : Handler) : ResponseRecorder → List Effect → ResponseRecorder
  | rw, [] => rw
  | rw, .WriteHeader code :: es => play next (rw.WriteHeader code) es
  | rw, .HeaderSet k v :: es => play next (rw.Set k v) es
  | rw, .HeaderDel k :: es => play next (rw.Del k) es
  | rw, .Write b :: es => play next (rw.Write b) es
  | rw, .Next req :: es => play next (next rw req) es
  | rw, .Abort _ :: _ => rw

/-! ## The rule compiler -/

variable {A R T : Type}

/-- Third block of `compile`: `if p.PathRegex != "" { p.pathRegex, err = regexp.Compile(...) }`. -/
def Path.compilePathRegex (lib : Lib A R T) (p : StaticResponsePlugin.Path A R T) :
    Result (StaticResponsePlugin.Path A R T) :=
  if p.PathRegex ≠ "" then
    match lib.regexpCompile p.PathRegex with
    | .ok re => .ok { p with pathRegex := some re }
    | .error err => .error ("invalid path regexp: " ++ err)
  else .ok p

/-- Fourth block of `compile`: `if p.Content != "" { ... template.New(tmplname).Parse(p.Content) }`. -/
def Path.compileContent (lib : Lib A R T) (p : StaticResponsePlugin.Path A R T) :
    Result (StaticResponsePlugin.Path A R T) :=
  if p.Content ≠ "" then
    -- Force a new line at the end of the template
    let content := if HasSuffix p.Content "\n" then p.Content else p.Content ++ "\n"
    let tmplname := if p.Path = "" then p.PathRegex else p.Path
    match lib.templateParse tmplname content with
    | .ok t => .ok { p with Content := content, template := some t }
    | .error err => .error ("invalid content template: " ++ err)
  else .ok p

/-- Fifth block of `compile`: `if len(p.JSONData) > 0 { ... json.Marshal ... append "\n" }`. -/
def Path.compileJSONData (lib : Lib A R T) (p : StaticResponsePlugin.Path A R T) :
    Result (StaticResponsePlugin.Path A R T) :=
  if p.JSONData.length > 0 then
    if p.Indent = 0 then
      match lib.jsonMarshal p.JSONData with
      | .ok bytes => .ok { p with jsonData := bytes ++ "\n" }
      | .error err => .error ("invalid json data: " ++ err)
    else
      match Repeat " " p.Indent with
      | .panic msg => .panic msg
      | .error msg => .error msg
      | .ok indent =>
        match lib.jsonMarshalIndent p.JSONData "" indent with
        | .ok bytes => .ok { p with jsonData := bytes ++ "\n" }
        | .error err => .error ("invalid json data: " ++ err)
  else .ok p

/-- Go `(*Path).compile`: the two validations, then the three blocks in order, each
working on the rule as the previous one left it. -/
def Path.compile (lib : Lib A R T) (p : StaticResponsePlugin.Path A R T) :
    Result (StaticResponsePlugin.Path A R T) :=
  if p.Path = "" ∧ p.PathRegex = "" then
    .error "path or pathRegex must be set"
  else if p.Content = "" ∧ p.JSONData.length = 0 then
    .error "content or jsonData must be set"
  else
    match p.compilePathRegex lib with
    | .error msg => .error msg
    | .panic msg => .panic msg
    | .ok p1 =>
      match p1.compileContent lib with
      | .error msg => .error msg
      | .panic msg => .panic msg
      | .ok p2 => p2.compileJSONData lib

/-- Go `StaticResponse`. -/
structure StaticResponse (A R T : Type) where
  next : Handler
  paths : List (Path A R T)
  name : String

/-- The loop of `New`: compile each rule in order, stop at the first failure. -/
def compilePaths (lib : Lib A R T) : List (Path A R T) → Result (List (Path A R T))
  | [] => .ok []
  | p :: ps =>
    match p.compile lib with
    | .error err => .error ("invalid path configuration " ++ p.Path ++ ": " ++ err)
    | .panic msg => .panic msg
    | .ok path =>
      match compilePaths lib ps with
      | .ok paths => .ok (path :: paths)
      | .error msg => .error msg
      | .panic msg => .panic msg

/-- Go `New` (the context argument is unused). -/
def New (lib : Lib A R T) (next : Handler) (config : Config A R T) (name : String) :
    Result (StaticResponse A R T) :=
  if config.Paths.length = 0 then
    .error "paths cannot be empty"
  else
    match compilePaths lib config.Paths with
    | .ok paths => .ok { paths := paths, next := next, name := name }
    | .error msg => .error msg
    | .panic msg => .panic msg

/-! ## The dispatch engine -/

/-- Go `http.StatusInternalServerError`. -/
def StatusInternalServerError : Int := 500

/-- Go `http.Error`: drop `Content-Length`, set the plain-text content type, write the
status, then the message followed by a newline. -/
def httpError (error : String) (code : Int) : List Effect :=
  [ .HeaderDel "Content-Length",
    .HeaderSet "Content-Type" "text/plain; charset=utf-8",
    .HeaderSet "X-Content-Type-Options" "nosniff",
    .WriteHeader code,
    .Write (error ++ "\n") ]

/-- The condition of the `if` in the loop of `ServeHTTP`. -/
def Path.isMatch (lib : Lib A R T) (p : StaticResponsePlugin.Path A R T) (req : Request) : Bool :=
  (p.Path != "" && p.Path == req.URL.Path) ||
    (match p.pathRegex with
     | some re => lib.matchString re req.URL.Path
     | none => false)

/-- The body of the `if` in the loop of `ServeHTTP`: the calls made for a selected rule. -/
def Path.respond (lib : Lib A R T) (p : StaticResponsePlugin.Path A R T) (req : Request) :
    List Effect :=
  (if p.Status ≠ 0 then [Effect.WriteHeader p.Status] else []) ++
  (if p.jsonData.length > 0 then
    [Effect.HeaderSet "Content-Type" "application/json", Effect.Write p.jsonData]
  else
    match p.template with
    | none => [Effect.Abort "invalid memory address or nil pointer dereference"]
    | some t =>
      let out := lib.templateExecute t [("Request", req)]
      out.1.map Effect.Write ++
        (match out.2 with
         | some err => httpError err StatusInternalServerError
         | none => []))

/-- The loop of `ServeHTTP` over the rules. -/
def servePaths (lib : Lib A R T) : List (Path A R T) → Request → List Effect
  | [], req => [Effect.Next req]
  | p :: ps, req => if p.isMatch lib req then p.respond lib req else servePaths lib ps req

/-- Go `(*StaticResponse).ServeHTTP`: the calls it makes, in order. -/
def StaticResponse.ServeHTTP (lib : Lib A R T) (a : StaticResponse A R T) (req : Request) :
    List Effect :=
  servePaths lib a.paths req

/-- The state of the sink `rw` after `a.ServeHTTP(rw, req)`. -/
def StaticResponse.serve (lib : Lib A R T) (a : StaticResponse A R T) (rw : ResponseRecorder)
    (req : Request) : ResponseRecorder :=
  rw.play a.next (a.ServeHTTP lib req)

/-! ## A small instance of the library

The theorems below hold for every `Lib`. To evaluate the plugin on concrete
configurations we use an instance that implements a fragment of the Go
library and rejects what lies outside it:

* patterns: a literal, optionally led by `^` and optionally followed by the
  group `(.*)`;
* templates: text and actions of the form `.Request.Field`, where the fields
  `Method` and `Host` print their value and a field whose name starts with a
  lower-case letter fails at execution (`*http.Request` has no such exported
  field or method); the location part of the error text is left out;
* JSON: maps from keys to null, booleans, integers, strings free of escapes,
  and channels, which have no encoding.
-/

namespace Fragment

/-- Values of `any` in the fragment. -/
inductive Value where
  | null
  | bool (b : Bool)
  | number (n : Int)
  | string (s : String)
  | channel

/-- A compiled pattern of the fragment: a literal, anchored at the start or not. -/
structure Regexp where
  anchored : Bool
  literal : List Char

/-- A node of a parsed template of the fragment. -/
inductive Node where
  | text (s : String)
  | field (name : String)

/-- A parsed template of the fragment. -/
abbrev Template := List Node

/-- Characters with a meaning in the pattern language. -/
def metaChars : List Char :=
  ['\\', '.', '+', '*', '?', '(', ')', '|', '[', ']', '\x7b', '\x7d', '^', '$']

/-- Remove the trailing group `(.*)`, which matches the empty string everywhere. -/
def dropAnyGroup (cs : List Char) : List Char :=
  if ['(', '.', '*', ')'].isSuffixOf cs then cs.take (cs.length - 4) else cs

/-- The fragment of `regexp.Compile`. -/
def regexpCompile (pattern : String) : Except String Regexp :=
  let cs := pattern.data
  let anchored := cs.head? == some '^'
  let body := dropAnyGroup (if anchored then cs.drop 1 else cs)
  if body.any (fun c => metaChars.contains c) then
    .error ("error parsing regexp: outside the fragment: " ++ pattern)
  else .ok { anchored := anchored, literal := body }

/-- The fragment of `MatchString`: search for the literal, or test it at the start. -/
def matchString (re : Regexp) (s : String) : Bool :=
  if re.anchored then re.literal.isPrefixOf s.data
  else s.data.tails.any (fun t => re.literal.isPrefixOf t)

/-- Split a text at the first doubled delimiter character. -/
def splitDelim (d : Char) : List Char → Option (List Char × List Char)
  | [] => none
  | [_] => none
  | c1 :: c2 :: rest =>
    if c1 = d ∧ c2 = d then some ([], rest)
    else (splitDelim d (c2 :: rest)).map (fun r => (c1 :: r.1, r.2))

/-- The field name of an action `.Request.Name`. -/
def fieldOf (action : List Char) : Option String :=
  let lead := ".Request.".data
  let name := action.drop lead.length
  if lead.isPrefixOf action ∧ name ≠ [] ∧ name.all Char.isAlphanum ∧
      (name.head?.map Char.isAlpha == some true) then
    some (String.mk name)
  else none

/-- Parse a text into nodes; the fuel bounds the number of actions. -/
def parseNodes : Nat → List Char → Except String Template
  | 0, _ => .error "template: out of fuel"
  | fuel + 1, cs =>
    match splitDelim '\x7b' cs with
    | none => .ok (if cs = [] then [] else [Node.text (String.mk cs)])
    | some (before, rest) =>
      match splitDelim '\x7d' rest with
      | none => .error "template: unclosed action"
      | some (action, after) =>
        match fieldOf action with
        | none => .error "template: action outside the fragment"
        | some name =>
          match parseNodes fuel after with
          | .error err => .error err
          | .ok nodes =>
            .ok ((if before = [] then [] else [Node.text (String.mk before)]) ++
              Node.field name :: nodes)

/-- The fragment of `template.New(name).Parse(text)`. -/
def templateParse (_name text : String) : Except String Template :=
  parseNodes (text.length + 1) text.data

/-- Evaluate `.Request.Name`. -/
def evalField (req : Request) (name : String) : Except String String :=
  if name = "Method" then .ok req.Method
  else if name = "Host" then .ok req.Host
  else .error ("can\x27t evaluate field " ++ name ++ " in type *http.Request")

/-- Walk the nodes: text is written as it is met, the first failing action stops
the walk. -/
def execNodes (req : Option Request) : Template → List String × Option String
  | [] => ([], none)
  | Node.text s :: rest =>
    let r := execNodes req rest
    (s :: r.1, r.2)
  | Node.field name :: rest =>
    match req with
    | none => ([], some ("nil data; no entry for key \"Request\""))
    | some rq =>
      match evalField rq name with
      | .error err => ([], some err)
      | .ok v =>
        let r := execNodes req rest
        (v :: r.1, r.2)

/-- The fragment of `Execute`. -/
def templateExecute (t : Template) (data : TemplateData) : List String × Option String :=
  execNodes ((data.find? (fun kv => kv.1 == "Request")).map (fun kv => kv.2)) t

/-- Characters a JSON string holds without an escape. -/
def plainChar (c : Char) : Bool :=
  c.val ≥ 0x20 && !(['\"', '\\', '<', '>', '&'].contains c) && c.val != 0x2028 && c.val != 0x2029

/-- Encode a string free of escapes. -/
def encodeString (s : String) : Except String String :=
  if s.data.all plainChar then .ok ("\"" ++ s ++ "\"")
  else .error "json: string outside the fragment"

/-- Encode one value. -/
def encodeValue : Value → Except String String
  | .null => .ok "null"
  | .bool b => .ok (if b then "true" else "false")
  | .number n => .ok (toString n)
  | .string s => encodeString s
  | .channel => .error "json: unsupported type: chan int"

/-- Insert an entry by key order. -/
def insertEntry (e : String × Value) : List (String × Value) → List (String × Value)
  | [] => [e]
  | x :: xs => if e.1.data < x.1.data then e :: x :: xs else x :: insertEntry e xs

/-- Entries sorted by key, as the encoder visits a map. -/
def sortEntries : List (String × Value) → List (String × Value)
  | [] => []
  | e :: es => insertEntry e (sortEntries es)

/-- Encode the entries, each as `key sep value`. -/
def encodeEntries (sep : String) : List (String × Value) → Except String (List String)
  | [] => .ok []
  | (k, v) :: es =>
    match encodeString k, encodeValue v, encodeEntries sep es with
    | .ok ks, .ok vs, .ok rest => .ok ((ks ++ sep ++ vs) :: rest)
    | .error err, _, _ => .error err
    | _, .error err, _ => .error err
    | _, _, .error err => .error err

/-- The fragment of `json.Marshal`. -/
def jsonMarshal (m : List (String × Value)) : Except String String :=
  match encodeEntries ":" (sortEntries m) with
  | .ok items => .ok ("\x7b" ++ ",".intercalate items ++ "\x7d")
  | .error err => .error err

/-- The fragment of `json.MarshalIndent`. -/
def jsonMarshalIndent (m : List (String × Value)) (lead indent : String) : Except String String :=
  match encodeEntries ": " (sortEntries m) with
  | .ok [] => .ok "\x7b\x7d"
  | .ok items =>
    .ok ("\x7b\n" ++ lead ++ indent ++ (",\n" ++ lead ++ indent).intercalate items ++
      "\n" ++ lead ++ "\x7d")
  | .error err => .error err

/-- The library instance. -/
def lib : Lib Value Regexp Template where
  regexpCompile := regexpCompile
  matchString := matchString
  templateParse := templateParse
  templateExecute := templateExecute
  jsonMarshal := jsonMarshal
  jsonMarshalIndent := jsonMarshalIndent

/-- A next handler that does nothing, as in the test. -/
def noop : Handler := fun rw _ => rw

/-- A GET request for a path. -/
def get (path : String) : Request := { URL := { Path := path } }

/-- The configuration of the test, without its third rule, whose template lies outside
the fragment. -/
def testConfig : Config Value Regexp Template :=
  { Paths := [
      { Path := "/", Content := "Hello World!" },
      { PathRegex := "^/regex/(.*)", Content := "Hello Regex!" } ] }

/-- Two rules that both match the path `/a`: an exact path, then a pattern. -/
def overlapConfig : Config Value Regexp Template :=
  { Paths := [
      { Path := "/a", Content := "exact" },
      { PathRegex := "^/a", Content := "pattern", Status := 201 } ] }

/-- The handler `New` builds from `overlapConfig`. -/
def overlapHandler : StaticResponse Value Regexp Template :=
  { next := noop
    name := "static"
    paths := [
      { Path := "/a", Content := "exact\n", template := some [Node.text "exact\n"] },
      { PathRegex := "^/a", Content := "pattern\n", Status := 201,
        pathRegex := some { anchored := true, literal := ['/', 'a'] },
        template := some [Node.text "pattern\n"] } ] }

/-- A rule whose negative indent aborts the construction, followed by a rule with neither a
path nor a pattern. -/
def abortingConfig : Config Value Regexp Template :=
  { Paths := [
      { Path := "/a", JSONData := [("k", Value.number 1)], Indent := -1 },
      { Content := "never reached" } ] }

/-- A rule with both JSON data and a content whose template would fail if it were run. -/
def bothConfig : Config Value Regexp Template :=
  { Paths := [
      { Path := "/both", Content := "ignored \x7b\x7b.Request.nope\x7d\x7d",
        JSONData := [("a", Value.number 1)], Status := 202 } ] }

/-- The handler `New` builds from `bothConfig`. -/
def bothHandler : StaticResponse Value Regexp Template :=
  { next := noop
    name := "static"
    paths := [
      { Path := "/both", Content := "ignored \x7b\x7b.Request.nope\x7d\x7d\n",
        JSONData := [("a", Value.number 1)], Status := 202,
        template := some [Node.text "ignored ", Node.field "nope", Node.text "\n"],
        jsonData := "\x7b\"a\":1\x7d\n" } ] }

/-- The error of the action `.Request.nope`. -/
def nopeError : String := "can\x27t evaluate field nope in type *http.Request"

/-- Rules whose template fails when run: with a status override, after some output, and
with neither. -/
def failingConfig : Config Value Regexp Template :=
  { Paths := [
      { Path := "/x", Content := "\x7b\x7b.Request.nope\x7d\x7d", Status := 201 },
      { Path := "/y", Content := "abc\x7b\x7b.Request.nope\x7d\x7d" },
      { Path := "/z", Content := "\x7b\x7b.Request.nope\x7d\x7d" } ] }

/-- The handler `New` builds from `failingConfig`. -/
def failingHandler : StaticResponse Value Regexp Template :=
  { next := noop
    name := "static"
    paths := [
      { Path := "/x", Content := "\x7b\x7b.Request.nope\x7d\x7d\n", Status := 201,
        template := some [Node.field "nope", Node.text "\n"] },
      { Path := "/y", Content := "abc\x7b\x7b.Request.nope\x7d\x7d\n",
        template := some [Node.text "abc", Node.field "nope", Node.text "\n"] },
      { Path := "/z", Content := "\x7b\x7b.Request.nope\x7d\x7d\n",
        template := some [Node.field "nope", Node.text "\n"] } ] }

/-- Rules with JSON data: with a status override and without. -/
def jsonConfig : Config Value Regexp Template :=
  { Paths := [
      { Path := "/j", JSONData := [("a", Value.number 1)], Status := 201 },
      { Path := "/k", JSONData := [("a", Value.number 1)] } ] }

/-- The handler `New` builds from `jsonConfig`. -/
def jsonHandler : StaticResponse Value Regexp Template :=
  { next := noop
    name := "static"
    paths := [
      { Path := "/j", JSONData := [("a", Value.number 1)], Status := 201,
        jsonData := "\x7b\"a\":1\x7d\n" },
      { Path := "/k", JSONData := [("a", Value.number 1)], jsonData := "\x7b\"a\":1\x7d\n" } ] }

/-- A rule whose content already ends with two newlines. -/
def doubleNewline : Path Value Regexp Template :=
  { Path := "/", Content := "a\n\n" }

/-- The rule `compile` makes of `doubleNewline`. -/
def doubleNewlineCompiled : Path Value Regexp Template :=
  { Path := "/", Content := "a\n\n", template := some [Node.text "a\n\n"] }

/-- The first rule of the test. -/
def helloWorld : Path Value Regexp Template :=
  { Path := "/", Content := "Hello World!" }

/-- The rule `compile` makes of `helloWorld`. -/
def helloWorldCompiled : Path Value Regexp Template :=
  { Path := "/", Content := "Hello World!\n", template := some [Node.text "Hello World!\n"] }

/-- The handler `New` builds from `testConfig`. -/
def testHandler : StaticResponse Value Regexp Template :=
  { next := noop
    name := "staticresponse-plugin"
    paths := [
      helloWorldCompiled,
      { PathRegex := "^/regex/(.*)", Content := "Hello Regex!\n",
        pathRegex := some { anchored := true, literal := "/regex/".data },
        template := some [Node.text "Hello Regex!\n"] } ] }

/-- A single rule with a pattern and no path, missing its response. -/
def patternOnlyConfig : Config Value Regexp Template :=
  { Paths := [ { PathRegex := "^/x" } ] }

/-- A rule with JSON data and no indent. -/
def compactRule : Path Value Regexp Template :=
  { Path := "/k", JSONData := [("b", Value.string "x"), ("a", Value.number 1)] }

/-- The rule `compile` makes of `compactRule`. -/
def compactRuleCompiled : Path Value Regexp Template :=
  { Path := "/k", JSONData := [("b", Value.string "x"), ("a", Value.number 1)],
    jsonData := "\x7b\"a\":1,\"b\":\"x\"\x7d\n" }

/-- A rule with JSON data and an indent of two spaces. -/
def indentRule : Path Value Regexp Template :=
  { Path := "/i", JSONData := [("b", Value.string "x"), ("a", Value.number 1)], Indent := 2 }

/-- The rule `compile` makes of `indentRule`. -/
def indentRuleCompiled : Path Value Regexp Template :=
  { Path := "/i", JSONData := [("b", Value.string "x"), ("a", Value.number 1)], Indent := 2,
    jsonData := "\x7b\n  \"a\": 1,\n  \"b\": \"x\"\n\x7d\n" }

/-- A rule with both a path and a pattern. -/
def twoMatchers : Path Value Regexp Template :=
  { Path := "/a", PathRegex := "^/b", Content := "x" }

/-- The rule `compile` makes of `twoMatchers`. -/
def twoMatchersCompiled : Path Value Regexp Template :=
  { Path := "/a", PathRegex := "^/b", Content := "x\n",
    pathRegex := some { anchored := true, literal := ['/', 'b'] },
    template := some [Node.text "x\n"] }

/-- A single rule with JSON data and a negative indent. -/
def negativeIndentConfig : Config Value Regexp Template :=
  { Paths := [ { Path := "/a", JSONData := [("k", Value.number 1)], Indent := -1 } ] }

end Fragment

/-! ## The construction on the memory of the caller

`New` is given a pointer to the configuration. To state what it does to the memory of the
caller, the loop is written once more with its three pieces of memory made explicit: the
slice of the caller, the loop variable and the new slice. -/

/-- The memory the loop of `New` works on. -/
structure NewFrame (A R T : Type) where
  /-- The slice `config.Paths`, owned by the caller. -/
  configPaths : List (Path A R T)
  /-- The loop variable `p`, which holds a copy of the current element; `path` points to it. -/
  p : Path A R T
  /-- The slice `paths` made by `New`. -/
  paths : List (Path A R T)

/-- The loop of `New` on its memory: `n` elements to go from index `i`. Each round copies
element `i` to `p`, compiles `p` in place, and copies `p` to `paths[i]`. -/
def newLoop (lib : Lib A R T) : Nat → Nat → NewFrame A R T → NewFrame A R T × Result Unit
  | 0, _, fr => (fr, .ok ())
  | n + 1, i, fr =>
    match fr.configPaths[i]? with
    | none => (fr, .ok ())
    | some elem =>
      -- for i, p := range config.Paths
      let fr1 : NewFrame A R T := { fr with p := elem }
      -- path := &p; err := path.compile()
      match fr1.p.compile lib with
      | .error err =>
        (fr1, .error ("invalid path configuration " ++ fr1.p.Path ++ ": " ++ err))
      | .panic msg => (fr1, .panic msg)
      | .ok q =>
        let fr2 : NewFrame A R T := { fr1 with p := q }
        -- paths[i] = *path
        let fr3 : NewFrame A R T := { fr2 with paths := fr2.paths.set i fr2.p }
        newLoop lib n (i + 1) fr3

/-- Go `New` on the memory of the caller: the configuration as the caller finds it after the
call, and what the call returns. -/
def NewOnMemory (lib : Lib A R T) (next : Handler) (config : Config A R T) (name : String) :
    Config A R T × Result (StaticResponse A R T) :=
  if config.Paths.length = 0 then
    (config, .error "paths cannot be empty")
  else
    -- paths := make([]Path, len(config.Paths))
    let fr0 : NewFrame A R T :=
      { configPaths := config.Paths, p := {}, paths := List.replicate config.Paths.length {} }
    match newLoop lib config.Paths.length 0 fr0 with
    | (fr, .ok _) => ({ Paths := fr.configPaths }, .ok { paths := fr.paths, next := next, name := name })
    | (fr, .error msg) => ({ Paths := fr.configPaths }, .error msg)
    | (fr, .panic msg) => ({ Paths := fr.configPaths }, .panic msg)

/-! ## Facts about the compiler -/

/-- The pattern block changes the compiled pattern only. -/
theorem compilePathRegex_ok (lib : Lib A R T) (p q : Path A R T)
    (h : p.compilePathRegex lib = .ok q) :
    ∃ re, q = { p with pathRegex := re } := by
  unfold Path.compilePathRegex at h
  split at h
  · split at h
    · cases h; exact ⟨_, rfl⟩
    · cases h
  · cases h; exact ⟨_, rfl⟩

/-- The content block: nothing changes for an empty content; otherwise the content ends
in a newline and is the text that was parsed. -/
theorem compileContent_ok (lib : Lib A R T) (p q : Path A R T)
    (h : p.compileContent lib = .ok q) :
    (p.Content = "" ∧ q = p) ∨
    (p.Content ≠ "" ∧ ∃ t,
      lib.templateParse (if p.Path = "" then p.PathRegex else p.Path)
        (if HasSuffix p.Content "\n" then p.Content else p.Content ++ "\n") = .ok t ∧
      q = { p with
        Content := if HasSuffix p.Content "\n" then p.Content else p.Content ++ "\n",
        template := some t }) := by
  unfold Path.compileContent at h
  split at h
  · rename_i hc
    right
    refine ⟨hc, ?_⟩
    simp only at h
    split at h
    · rename_i t ht
      cases h
      exact ⟨t, ht, rfl⟩
    · cases h
  · rename_i hc
    cases h
    left
    exact ⟨not_not.mp hc, rfl⟩

/-- The JSON block: nothing changes for an empty map; otherwise the stored bytes are the
marshalled bytes followed by a newline. -/
theorem compileJSONData_ok (lib : Lib A R T) (p q : Path A R T)
    (h : p.compileJSONData lib = .ok q) :
    (p.JSONData = [] ∧ q = p) ∨
    (p.JSONData ≠ [] ∧ ∃ bytes, q = { p with jsonData := bytes ++ "\n" } ∧
      ((p.Indent = 0 ∧ lib.jsonMarshal p.JSONData = .ok bytes) ∨
       (p.Indent ≠ 0 ∧ ∃ indent, Repeat " " p.Indent = .ok indent ∧
          lib.jsonMarshalIndent p.JSONData "" indent = .ok bytes))) := by
  unfold Path.compileJSONData at h
  split at h
  · rename_i hj
    right
    refine ⟨List.ne_nil_of_length_pos hj, ?_⟩
    split at h
    · rename_i hi
      split at h
      · rename_i bytes hb
        cases h
        exact ⟨bytes, rfl, Or.inl ⟨hi, hb⟩⟩
      · cases h
    · rename_i hi
      split at h
      · cases h
      · cases h
      · rename_i indent hr
        split at h
        · rename_i bytes hb
          cases h
          exact ⟨bytes, rfl, Or.inr ⟨hi, indent, hr, hb⟩⟩
        · cases h
  · rename_i hj
    cases h
    left
    refine ⟨?_, rfl⟩
    cases hp : p.JSONData with
    | nil => rfl
    | cons x xs => rw [hp] at hj; simp at hj

/-- A successful `compile` is the three blocks in sequence, past both validations. -/
theorem compile_ok_steps (lib : Lib A R T) (p q : Path A R T) (h : p.compile lib = .ok q) :
    ¬ (p.Path = "" ∧ p.PathRegex = "") ∧ ¬ (p.Content = "" ∧ p.JSONData.length = 0) ∧
    ∃ p1 p2, p.compilePathRegex lib = .ok p1 ∧ p1.compileContent lib = .ok p2 ∧
      p2.compileJSONData lib = .ok q := by
  unfold Path.compile at h
  by_cases h1 : p.Path = "" ∧ p.PathRegex = ""
  · rw [if_pos h1] at h; cases h
  rw [if_neg h1] at h
  by_cases h2 : p.Content = "" ∧ p.JSONData.length = 0
  · rw [if_pos h2] at h; cases h
  rw [if_neg h2] at h
  refine ⟨h1, h2, ?_⟩
  split at h
  · cases h
  · cases h
  · rename_i p1 hp1
    split at h
    · cases h
    · cases h
    · rename_i p2 hp2
      exact ⟨p1, p2, hp1, hp2, h⟩

/-- What a successful `compile` leaves in the rule. -/
theorem compile_ok_spec (lib : Lib A R T) (p q : Path A R T) (h : p.compile lib = .ok q) :
    q.Path = p.Path ∧ q.PathRegex = p.PathRegex ∧ q.JSONData = p.JSONData ∧
    q.Indent = p.Indent ∧ q.Status = p.Status ∧
    q.Content = (if p.Content = "" then ""
      else if HasSuffix p.Content "\n" then p.Content else p.Content ++ "\n") ∧
    (p.Content ≠ "" → ∃ t, q.template = some t ∧
      lib.templateParse (if p.Path = "" then p.PathRegex else p.Path) q.Content = .ok t) ∧
    (p.JSONData ≠ [] → ∃ bytes, q.jsonData = bytes ++ "\n") ∧
    (p.JSONData = [] → q.jsonData = p.jsonData) := by
  obtain ⟨_, _, p1, p2, h1, h2, h3⟩ := compile_ok_steps lib p q h
  obtain ⟨re, rfl⟩ := compilePathRegex_ok lib p p1 h1
  rcases compileContent_ok lib _ p2 h2 with ⟨hc, rfl⟩ | ⟨hc, t, ht, rfl⟩
  · simp only at hc
    rcases compileJSONData_ok lib _ q h3 with ⟨hj, rfl⟩ | ⟨hj, bytes, rfl, _⟩
    · simp only at hj
      simp [hc, hj]
    · simp only at hj
      simp [hc, hj]
      exact ⟨bytes, rfl⟩
  · simp only at hc ht
    rcases compileJSONData_ok lib _ q h3 with ⟨hj, rfl⟩ | ⟨hj, bytes, rfl, _⟩
    · simp only at hj
      simp [hc, hj, ht]
    · simp only at hj
      simp [hc, hj, ht]
      exact ⟨bytes, rfl⟩

/-- A compiled rule can always render: it has stored JSON bytes or a parsed template. -/
theorem compile_ok_renderer (lib : Lib A R T) (p q : Path A R T) (h : p.compile lib = .ok q) :
    q.jsonData.length > 0 ∨ ∃ t, q.template = some t := by
  obtain ⟨_, hne, _⟩ := compile_ok_steps lib p q h
  obtain ⟨_, _, _, _, _, _, ht, hj, _⟩ := compile_ok_spec lib p q h
  by_cases hc : p.Content = ""
  · have hj2 : p.JSONData ≠ [] := by
      intro hnil
      exact hne ⟨hc, by simp [hnil]⟩
    obtain ⟨bytes, hb⟩ := hj hj2
    left
    rw [hb, String.length_append]
    exact Nat.lt_of_lt_of_le (by decide) (Nat.le_add_left _ _)
  · obtain ⟨t, ht1, _⟩ := ht hc
    exact Or.inr ⟨t, ht1⟩

/-- Every element on the right of a pairing has a partner on the left. -/
theorem forall₂_right_mem {α β : Type} {r : α → β → Prop} {xs : List α} {ys : List β}
    (h : List.Forall₂ r xs ys) : ∀ y ∈ ys, ∃ x ∈ xs, r x y := by
  induction h with
  | nil => intro y hy; cases hy
  | cons hxy _ ih =>
    intro y hy
    rcases List.mem_cons.mp hy with rfl | hy
    · exact ⟨_, List.mem_cons_self _ _, hxy⟩
    · obtain ⟨x, hx, hr⟩ := ih y hy
      exact ⟨x, List.mem_cons_of_mem _ hx, hr⟩

/-- When the loop of `New` succeeds, every rule compiled, and the results are in the order
of the input. -/
theorem compilePaths_ok (lib : Lib A R T) (ps qs : List (Path A R T))
    (h : compilePaths lib ps = .ok qs) :
    List.Forall₂ (fun p q => p.compile lib = .ok q) ps qs := by
  induction ps generalizing qs with
  | nil =>
    simp only [compilePaths] at h
    cases h
    exact List.Forall₂.nil
  | cons p ps ih =>
    simp only [compilePaths] at h
    split at h
    · cases h
    · cases h
    · rename_i path hp
      split at h
      · rename_i paths hps
        cases h
        exact List.Forall₂.cons hp (ih paths hps)
      · cases h
      · cases h

/-- A handler returned by `New` holds the compiled rules of a non-empty configuration. -/
theorem New_ok (lib : Lib A R T) (next : Handler) (config : Config A R T) (name : String)
    (a : StaticResponse A R T) (h : New lib next config name = .ok a) :
    config.Paths ≠ [] ∧ compilePaths lib config.Paths = .ok a.paths ∧ a.next = next ∧
      a.name = name := by
  unfold New at h
  split at h
  · cases h
  · rename_i hlen
    split at h
    · rename_i paths hps
      cases h
      refine ⟨?_, hps, rfl, rfl⟩
      intro hnil
      exact hlen (by simp [hnil])
    · cases h
    · cases h

/-- Every rule of a handler returned by `New` can render. -/
theorem New_ok_renderer (lib : Lib A R T) (next : Handler) (config : Config A R T)
    (name : String) (a : StaticResponse A R T) (h : New lib next config name = .ok a) :
    ∀ q ∈ a.paths, q.jsonData.length > 0 ∨ ∃ t, q.template = some t := by
  obtain ⟨_, hps, _, _⟩ := New_ok lib next config name a h
  have hall := compilePaths_ok lib _ _ hps
  intro q hq
  obtain ⟨p, _, hp⟩ := forall₂_right_mem hall q hq
  exact compile_ok_renderer lib p q hp

/-- A rule with neither a path nor a pattern, or with neither a content nor JSON data, is
refused by the validations at the head of `compile`. -/
theorem compile_invalid (lib : Lib A R T) (p : Path A R T)
    (h : (p.Path = "" ∧ p.PathRegex = "") ∨ (p.Content = "" ∧ p.JSONData = [])) :
    p.compile lib = .error "path or pathRegex must be set" ∨
    p.compile lib = .error "content or jsonData must be set" := by
  unfold Path.compile
  by_cases h1 : p.Path = "" ∧ p.PathRegex = ""
  · left; rw [if_pos h1]
  · right
    rcases h with h | ⟨hc, hj⟩
    · exact absurd h h1
    · rw [if_neg h1, if_pos ⟨hc, by simp [hj]⟩]

/-- The compiler aborts only in `strings.Repeat`, on a negative indent of a rule with JSON
data. -/
theorem compile_panic (lib : Lib A R T) (p : Path A R T) (msg : String)
    (h : p.compile lib = .panic msg) : p.JSONData ≠ [] ∧ p.Indent < 0 := by
  unfold Path.compile at h
  split at h
  · cases h
  split at h
  · cases h
  split at h
  · cases h
  · rename_i hp1
    unfold Path.compilePathRegex at hp1
    split at hp1
    · split at hp1 <;> cases hp1
    · cases hp1
  · rename_i p1 hp1
    obtain ⟨re, rfl⟩ := compilePathRegex_ok lib p p1 hp1
    split at h
    · cases h
    · rename_i hp2
      unfold Path.compileContent at hp2
      split at hp2
      · simp only at hp2
        split at hp2 <;> cases hp2
      · cases hp2
    · rename_i p2 hp2
      have hsame : p2.JSONData = p.JSONData ∧ p2.Indent = p.Indent := by
        rcases compileContent_ok lib _ p2 hp2 with ⟨_, rfl⟩ | ⟨_, t, _, rfl⟩ <;> exact ⟨rfl, rfl⟩
      unfold Path.compileJSONData at h
      split at h
      · rename_i hj
        split at h
        · split at h <;> cases h
        · split at h
          · rename_i hr
            unfold Repeat at hr
            split at hr
            · rename_i hneg
              rw [← hsame.1, ← hsame.2]
              exact ⟨List.ne_nil_of_length_pos hj, hneg⟩
            · cases hr
          · cases h
          · split at h <;> cases h
      · cases h

/-- The loop of `New` aborts only when some rule does. -/
theorem compilePaths_panic (lib : Lib A R T) (ps : List (Path A R T)) (msg : String)
    (h : compilePaths lib ps = .panic msg) : ∃ p ∈ ps, p.JSONData ≠ [] ∧ p.Indent < 0 := by
  induction ps with
  | nil => simp only [compilePaths] at h; cases h
  | cons p ps ih =>
    simp only [compilePaths] at h
    split at h
    · cases h
    · rename_i m hp
      exact ⟨p, List.mem_cons_self _ _, compile_panic lib p m hp⟩
    · split at h
      · cases h
      · cases h
      · rename_i m hps
        cases h
        obtain ⟨q, hq, hqp⟩ := ih hps
        exact ⟨q, List.mem_cons_of_mem _ hq, hqp⟩

/-- A configuration with a rule that fails the validations never yields a handler. -/
theorem New_invalid_no_handler (lib : Lib A R T) (next : Handler) (config : Config A R T)
    (name : String) (p : Path A R T) (hp : p ∈ config.Paths)
    (h : (p.Path = "" ∧ p.PathRegex = "") ∨ (p.Content = "" ∧ p.JSONData = [])) :
    (New lib next config name).value? = none := by
  cases hnew : New lib next config name with
  | error msg => rfl
  | panic msg => rfl
  | ok a =>
    exfalso
    obtain ⟨_, hps, _, _⟩ := New_ok lib next config name a hnew
    have hall := compilePaths_ok lib _ _ hps
    obtain ⟨q, _, hq⟩ := forall₂_right_mem (List.Forall₂.flip hall) p hp
    rcases compile_invalid lib p h with he | he <;> rw [he] at hq <;> cases hq

/-- A configuration with a rule that fails the validations yields an error when no rule
combines JSON data with a negative indent. -/
theorem New_invalid_error (lib : Lib A R T) (next : Handler) (config : Config A R T)
    (name : String) (p : Path A R T) (hp : p ∈ config.Paths)
    (h : (p.Path = "" ∧ p.PathRegex = "") ∨ (p.Content = "" ∧ p.JSONData = []))
    (hindent : ∀ q ∈ config.Paths, q.JSONData ≠ [] → 0 ≤ q.Indent) :
    (New lib next config name).isError = true := by
  have hnone := New_invalid_no_handler lib next config name p hp h
  cases hnew : New lib next config name with
  | error msg => rfl
  | ok a => rw [hnew] at hnone; cases hnone
  | panic msg =>
    exfalso
    unfold New at hnew
    split at hnew
    · cases hnew
    · split at hnew
      · cases hnew
      · cases hnew
      · rename_i m hps
        obtain ⟨q, hq, hj, hneg⟩ := compilePaths_panic lib _ m hps
        exact absurd (hindent q hq hj) (not_le.mpr hneg)

/-- A handler returned by `New` has one compiled rule per configured rule, in the same
position. -/
theorem New_ok_getElem (lib : Lib A R T) (next : Handler) (config : Config A R T)
    (name : String) (a : StaticResponse A R T) (h : New lib next config name = .ok a) :
    a.paths.length = config.Paths.length ∧
    ∀ i, ∀ hi : i < config.Paths.length, ∀ hi2 : i < a.paths.length,
      config.Paths[i].compile lib = .ok a.paths[i] := by
  obtain ⟨_, hps, _, _⟩ := New_ok lib next config name a h
  have hall := compilePaths_ok lib _ _ hps
  obtain ⟨hlen, hget⟩ := List.forall₂_iff_get.mp hall
  exact ⟨hlen.symm, fun i hi hi2 => hget i hi hi2⟩

/-! ## Facts about strings and the library instance -/

/-- The test `HasSuffix` on the characters. -/
theorem hasSuffix_iff (s t : String) : HasSuffix s t = true ↔ t.data <:+ s.data := by
  unfold HasSuffix
  exact List.isSuffixOf_iff_suffix

/-- A text with a newline appended ends with a newline. -/
theorem hasSuffix_append_newline (s : String) : HasSuffix (s ++ "\n") "\n" = true := by
  rw [hasSuffix_iff, String.data_append]
  exact List.suffix_append _ _

/-- A text that ends with two newlines ends with one. -/
theorem hasSuffix_one_of_two (s : String) (h : HasSuffix s "\n\n" = true) :
    HasSuffix s "\n" = true := by
  rw [hasSuffix_iff] at h ⊢
  exact List.IsSuffix.trans ⟨['\n'], rfl⟩ h

/-- Appending a newline to a text that does not end with one does not make it end with two. -/
theorem hasSuffix_two_append (s : String) (h : HasSuffix s "\n" = false) :
    HasSuffix (s ++ "\n") "\n\n" = false := by
  apply Bool.eq_false_iff.mpr
  intro h2
  apply Bool.eq_false_iff.mp h
  rw [hasSuffix_iff] at h2 ⊢
  rw [String.data_append] at h2
  obtain ⟨t, ht⟩ := h2
  have ht2 : (t ++ ['\n']) ++ ['\n'] = s.data ++ ['\n'] := by
    rw [List.append_assoc]; exact ht
  exact ⟨t, List.append_cancel_right ht2⟩

/-- Appending a newline to a text without actions leaves it without actions. -/
theorem actionFree_append_newline (s : String) (h : ActionFree s) : ActionFree (s ++ "\n") := by
  unfold ActionFree at h ⊢
  intro hin
  rw [String.data_append] at hin
  rcases List.infix_concat_iff.mp hin with hsuf | hinf
  · rcases List.suffix_concat_iff.mp hsuf with hnil | ⟨t, ht, _⟩
    · cases hnil
    · have hlast := congrArg List.getLast? ht
      simp at hlast
  · exact h hinf

/-- Without a doubled delimiter there is nothing to split. -/
theorem Fragment.splitDelim_none (d : Char) (cs : List Char) (h : ¬ ([d, d] <:+: cs)) :
    Fragment.splitDelim d cs = none := by
  induction cs with
  | nil => rfl
  | cons c1 tl ih =>
    cases tl with
    | nil => rfl
    | cons c2 rest =>
      have htl : ¬ ([d, d] <:+: c2 :: rest) := fun hin =>
        h (List.infix_cons_iff.mpr (Or.inr hin))
      have hhead : ¬ (c1 = d ∧ c2 = d) := by
        rintro ⟨rfl, rfl⟩
        exact h (List.IsPrefix.isInfix ⟨rest, rfl⟩)
      simp only [Fragment.splitDelim, if_neg hhead, ih htl, Option.map_none']

/-- The library instance treats literal text as text/template does. -/
theorem Fragment.lib_literalText : Fragment.lib.LiteralText := by
  intro name text hne hfree
  have hdata : text.data ≠ [] := by
    intro hnil
    apply hne
    cases text
    simp only at hnil
    subst hnil
    rfl
  have hsplit : Fragment.splitDelim '\x7b' text.data = none :=
    Fragment.splitDelim_none _ _ hfree
  refine ⟨[Fragment.Node.text text], ?_, fun data => rfl⟩
  show Fragment.parseNodes (text.length + 1) text.data = _
  simp only [Fragment.parseNodes, hsplit, if_neg hdata]

/-! ## Facts about the dispatch engine -/

/-- The calls of `http.Error` all go to the response writer. -/
theorem httpError_isSink (msg : String) (code : Int) :
    ∀ e ∈ httpError msg code, e.isSink = true := by
  intro e he
  simp only [httpError, List.mem_cons, List.mem_singleton, List.not_mem_nil, or_false] at he
  rcases he with rfl | rfl | rfl | rfl | rfl <;> rfl

/-- A rule that can render only calls the response writer: it neither forwards nor aborts. -/
theorem respond_isSink (lib : Lib A R T) (q : Path A R T) (req : Request)
    (h : q.jsonData.length > 0 ∨ ∃ t, q.template = some t) :
    ∀ e ∈ q.respond lib req, e.isSink = true := by
  intro e he
  unfold Path.respond at he
  rcases List.mem_append.mp he with he | he
  · split at he
    · rw [List.mem_singleton] at he; subst he; rfl
    · cases he
  · by_cases hj : q.jsonData.length > 0
    · rw [if_pos hj] at he
      simp only [List.mem_cons, List.mem_singleton, List.not_mem_nil, or_false] at he
      rcases he with rfl | rfl <;> rfl
    · rw [if_neg hj] at he
      rcases h with h | ⟨t, ht⟩
      · exact absurd h hj
      · rw [ht] at he
        simp only at he
        rcases List.mem_append.mp he with he | he
        · obtain ⟨b, _, rfl⟩ := List.mem_map.mp he
          rfl
        · split at he
          · exact httpError_isSink _ _ e he
          · cases he

/-- The loop of `ServeHTTP` stops at the first rule whose condition holds: the calls are
those of that rule, and no rule after it is looked at. -/
theorem servePaths_first_match (lib : Lib A R T) (req : Request) (ps : List (Path A R T))
    (h : ∃ q ∈ ps, q.isMatch lib req = true) :
    ∃ i, ∃ hi : i < ps.length,
      ps[i].isMatch lib req = true ∧
      (∀ j, ∀ hj : j < i, ps[j].isMatch lib req = false) ∧
      servePaths lib ps req = ps[i].respond lib req ∧
      (∀ qs : List (Path A R T), qs.take (i + 1) = ps.take (i + 1) →
        servePaths lib qs req = servePaths lib ps req) := by
  induction ps with
  | nil =>
    obtain ⟨q, hq, _⟩ := h
    cases hq
  | cons p ps ih =>
    by_cases hp : p.isMatch lib req = true
    · refine ⟨0, Nat.succ_pos _, hp, ?_, ?_, ?_⟩
      · intro j hj; cases hj
      · simp [servePaths, hp]
      · intro qs hqs
        cases qs with
        | nil => simp at hqs
        | cons q qs =>
          simp only [List.take_succ_cons, List.take_zero, List.cons.injEq, and_true] at hqs
          subst hqs
          simp [servePaths, hp]
    · have hrest : ∃ q ∈ ps, q.isMatch lib req = true := by
        obtain ⟨q, hq, hm⟩ := h
        rcases List.mem_cons.mp hq with rfl | hq
        · exact absurd hm hp
        · exact ⟨q, hq, hm⟩
      obtain ⟨i, hi, hm, hfirst, hserve, hpre⟩ := ih hrest
      refine ⟨i + 1, Nat.succ_lt_succ hi, ?_, ?_, ?_, ?_⟩
      · simpa using hm
      · intro j hj
        cases j with
        | zero => simpa using hp
        | succ j => simpa using hfirst j (Nat.lt_of_succ_lt_succ hj)
      · simp only [servePaths, hp, List.getElem_cons_succ]
        simpa using hserve
      · intro qs hqs
        cases qs with
        | nil => simp at hqs
        | cons q qs =>
          simp only [List.take_succ_cons, List.cons.injEq] at hqs
          obtain ⟨rfl, hqs⟩ := hqs
          simp only [servePaths, hp]
          simpa using hpre qs hqs

/-- When no rule matches, the loop of `ServeHTTP` makes one call: the next handler, with the
request it was given. -/
theorem servePaths_no_match (lib : Lib A R T) (req : Request) (ps : List (Path A R T))
    (h : ∀ q ∈ ps, q.isMatch lib req = false) :
    servePaths lib ps req = [Effect.Next req] := by
  induction ps with
  | nil => rfl
  | cons p ps ih =>
    have hp : p.isMatch lib req = false := h p (List.mem_cons_self _ _)
    simp only [servePaths, hp]
    exact ih (fun q hq => h q (List.mem_cons_of_mem _ hq))

/-- The calls of a rule with stored JSON bytes: the status if it is set, the content type,
the bytes. The template is not run. -/
theorem respond_json (lib : Lib A R T) (q : Path A R T) (req : Request)
    (h : q.jsonData.length > 0) :
    q.respond lib req =
      (if q.Status ≠ 0 then [Effect.WriteHeader q.Status] else []) ++
        [Effect.HeaderSet "Content-Type" "application/json", Effect.Write q.jsonData] := by
  unfold Path.respond
  rw [if_pos h]

/-- The condition of a rule does not involve the template executor. -/
theorem isMatch_templateExecute (lib : Lib A R T)
    (exec : T → TemplateData → List String × Option String) (q : Path A R T) (req : Request) :
    q.isMatch { lib with templateExecute := exec } req = q.isMatch lib req := rfl

/-- The loop of `ServeHTTP` at the first matching rule, for a rule list given by index. -/
theorem servePaths_at (lib : Lib A R T) (req : Request) (ps : List (Path A R T)) (i : Nat)
    (hi : i < ps.length) (hm : ps[i].isMatch lib req = true)
    (hfirst : ∀ j, ∀ hj : j < i, ps[j].isMatch lib req = false) :
    servePaths lib ps req = ps[i].respond lib req := by
  induction ps generalizing i with
  | nil => cases hi
  | cons p ps ih =>
    cases i with
    | zero =>
      have hp : p.isMatch lib req = true := by simpa using hm
      simp [servePaths, hp]
    | succ i =>
      have hp : p.isMatch lib req = false := by simpa using hfirst 0 (Nat.succ_pos _)
      simp only [servePaths, hp, List.getElem_cons_succ]
      refine ih i (Nat.lt_of_succ_lt_succ hi) (by simpa using hm) ?_
      intro j hj
      simpa using hfirst (j + 1) (Nat.succ_lt_succ hj)

/-! ## Facts about the sink -/

/-- Once the status is committed, no call on the response writer changes the status or
the committed headers. -/
theorem play_committed (next : Handler) (es : List Effect) (rw : ResponseRecorder)
    (hw : rw.wroteHeader = true) (hs : ∀ e ∈ es, e.isSink = true) :
    (rw.play next es).Code = rw.Code ∧ (rw.play next es).ResultHeader = rw.ResultHeader ∧
      (rw.play next es).wroteHeader = true := by
  induction es generalizing rw with
  | nil => exact ⟨rfl, rfl, hw⟩
  | cons e es ih =>
    have hes : ∀ e ∈ es, e.isSink = true := fun x hx => hs x (List.mem_cons_of_mem _ hx)
    have he := hs e (List.mem_cons_self _ _)
    cases e with
    | WriteHeader code =>
      have hstep : rw.WriteHeader code = rw := by simp [ResponseRecorder.WriteHeader, hw]
      simp only [ResponseRecorder.play, hstep]
      exact ih rw hw hes
    | HeaderSet k v =>
      simp only [ResponseRecorder.play]
      obtain ⟨h1, h2, h3⟩ := ih (rw.Set k v) hw hes
      refine ⟨h1, ?_, h3⟩
      rw [h2]
      simp [ResponseRecorder.ResultHeader, ResponseRecorder.Set, hw]
    | HeaderDel k =>
      simp only [ResponseRecorder.play]
      obtain ⟨h1, h2, h3⟩ := ih (rw.Del k) hw hes
      refine ⟨h1, ?_, h3⟩
      rw [h2]
      simp [ResponseRecorder.ResultHeader, ResponseRecorder.Del, hw]
    | Write b =>
      have hw2 : (rw.Write b).wroteHeader = true := by
        simp [ResponseRecorder.Write, ResponseRecorder.WriteHeader, hw]
      simp only [ResponseRecorder.play]
      obtain ⟨h1, h2, h3⟩ := ih (rw.Write b) hw2 hes
      refine ⟨?_, ?_, h3⟩
      · rw [h1]; simp [ResponseRecorder.Write, ResponseRecorder.WriteHeader, hw]
      · rw [h2]; simp [ResponseRecorder.ResultHeader, ResponseRecorder.Write,
          ResponseRecorder.WriteHeader, hw]
    | Next req => cases he
    | Abort msg => cases he

/-- A rule with a status override, on a fresh sink: the status of the response is the
override whatever the rule does next; in particular it is not 500 when the template fails,
because the status write of `http.Error` comes after the status was committed. -/
theorem respond_status_override (lib : Lib A R T) (next : Handler) (q : Path A R T)
    (req : Request) (hr : q.jsonData.length > 0 ∨ ∃ t, q.template = some t)
    (hstatus : q.Status ≠ 0) :
    (NewRecorder.play next (q.respond lib req)).Code = q.Status := by
  have hsink := respond_isSink lib q req hr
  unfold Path.respond at hsink ⊢
  rw [if_pos hstatus] at hsink ⊢
  simp only [List.singleton_append, ResponseRecorder.play]
  have hw : (NewRecorder.WriteHeader q.Status).wroteHeader = true := rfl
  have h := play_committed next _ (NewRecorder.WriteHeader q.Status) hw
    (fun e he => hsink e (List.mem_cons_of_mem _ he))
  rw [h.1]
  rfl

/-- A rule without status override whose template fails after some output: the status of
the response is 200, committed by the first write. -/
theorem respond_error_after_output (lib : Lib A R T) (next : Handler) (q : Path A R T)
    (req : Request) (t : T) (b : String) (out : List String) (err : String)
    (hjson : q.jsonData.length = 0) (ht : q.template = some t)
    (hexec : lib.templateExecute t [("Request", req)] = (b :: out, some err))
    (hstatus : q.Status = 0) :
    (NewRecorder.play next (q.respond lib req)).Code = 200 := by
  have hsink := respond_isSink lib q req (Or.inr ⟨t, ht⟩)
  have hj : ¬ q.jsonData.length > 0 := by omega
  unfold Path.respond at hsink ⊢
  rw [if_neg (not_not.mpr hstatus), if_neg hj, ht] at hsink ⊢
  simp only [hexec, List.nil_append, List.map_cons, List.cons_append,
    ResponseRecorder.play] at hsink ⊢
  have hw : (NewRecorder.Write b).wroteHeader = true := rfl
  have h := play_committed next _ (NewRecorder.Write b) hw
    (fun e he => hsink e (List.mem_cons_of_mem _ he))
  rw [h.1]
  rfl

/-- A rule without status override whose template fails before any output: the response
has status 500 and its body is the error text followed by a newline. -/
theorem respond_error_plain (lib : Lib A R T) (next : Handler) (q : Path A R T)
    (req : Request) (t : T) (err : String)
    (hjson : q.jsonData.length = 0) (ht : q.template = some t)
    (hexec : lib.templateExecute t [("Request", req)] = ([], some err))
    (hstatus : q.Status = 0) :
    (NewRecorder.play next (q.respond lib req)).Code = 500 ∧
    (NewRecorder.play next (q.respond lib req)).Body = err ++ "\n" := by
  have hj : ¬ q.jsonData.length > 0 := by omega
  unfold Path.respond
  rw [if_neg (not_not.mpr hstatus), if_neg hj, ht]
  simp only [hexec, List.nil_append, List.map_nil, httpError, ResponseRecorder.play]
  refine ⟨rfl, ?_⟩
  show "" ++ (err ++ "\n") = err ++ "\n"
  exact String.empty_append _

/-- A rule with stored JSON bytes and a status override, on a fresh sink: the status is
committed before the content type is set, so the response carries no header at all. -/
theorem respond_json_status_override (lib : Lib A R T) (next : Handler) (q : Path A R T)
    (req : Request) (hjson : q.jsonData.length > 0) (hstatus : q.Status ≠ 0) :
    (NewRecorder.play next (q.respond lib req)).ResultHeader = [] ∧
    (NewRecorder.play next (q.respond lib req)).Code = q.Status ∧
    (NewRecorder.play next (q.respond lib req)).Body = q.jsonData := by
  rw [respond_json lib q req hjson, if_pos hstatus]
  simp only [List.singleton_append, ResponseRecorder.play]
  refine ⟨rfl, rfl, ?_⟩
  show "" ++ q.jsonData = q.jsonData
  exact String.empty_append _

/-- A rule with stored JSON bytes and no status override, on a fresh sink: the response has
status 200, the JSON content type and the stored bytes as body. -/
theorem respond_json_plain (lib : Lib A R T) (next : Handler) (q : Path A R T)
    (req : Request) (hjson : q.jsonData.length > 0) (hstatus : q.Status = 0) :
    (NewRecorder.play next (q.respond lib req)).Get "Content-Type" = some "application/json" ∧
    (NewRecorder.play next (q.respond lib req)).Code = 200 ∧
    (NewRecorder.play next (q.respond lib req)).Body = q.jsonData := by
  rw [respond_json lib q req hjson, if_neg (not_not.mpr hstatus)]
  simp only [List.nil_append, ResponseRecorder.play]
  refine ⟨rfl, rfl, ?_⟩
  show "" ++ q.jsonData = q.jsonData
  exact String.empty_append _

/-! ## Facts about the errors of the construction -/

/-- An error of the loop of `New` is the error of one rule, led by the text
"invalid path configuration", the `Path` of that rule and a colon. -/
theorem compilePaths_error (lib : Lib A R T) (ps : List (Path A R T)) (msg : String)
    (h : compilePaths lib ps = .error msg) :
    ∃ p ∈ ps, ∃ err, p.compile lib = .error err ∧
      msg = "invalid path configuration " ++ p.Path ++ ": " ++ err := by
  induction ps with
  | nil => simp only [compilePaths] at h; cases h
  | cons p ps ih =>
    simp only [compilePaths] at h
    split at h
    · rename_i err hp
      cases h
      exact ⟨p, List.mem_cons_self _ _, err, hp, rfl⟩
    · cases h
    · split at h
      · cases h
      · rename_i m hps
        cases h
        obtain ⟨q, hq, err, hqe, hmsg⟩ := ih hps
        exact ⟨q, List.mem_cons_of_mem _ hq, err, hqe, hmsg⟩
      · cases h

/-- An error of `New` is the error for an empty list or the error of one rule, led by the
`Path` of that rule. -/
theorem New_error (lib : Lib A R T) (next : Handler) (config : Config A R T) (name : String)
    (msg : String) (h : New lib next config name = .error msg) :
    (config.Paths = [] ∧ msg = "paths cannot be empty") ∨
    ∃ p ∈ config.Paths, ∃ err, p.compile lib = .error err ∧
      msg = "invalid path configuration " ++ p.Path ++ ": " ++ err := by
  unfold New at h
  split at h
  · rename_i hlen
    cases h
    exact Or.inl ⟨List.length_eq_zero.mp hlen, rfl⟩
  · split at h
    · cases h
    · rename_i m hps
      cases h
      exact Or.inr (compilePaths_error lib _ _ hps)
    · cases h

/-- An error of `New` on a rule holds the `Path` of that rule. -/
theorem New_error_holds_path (lib : Lib A R T) (next : Handler) (config : Config A R T)
    (name : String) (msg : String) (h : New lib next config name = .error msg)
    (hne : config.Paths ≠ []) :
    ∃ p ∈ config.Paths, (∃ err, p.compile lib = .error err) ∧ p.Path.data <:+: msg.data := by
  rcases New_error lib next config name msg h with ⟨hnil, _⟩ | ⟨p, hp, err, he, hmsg⟩
  · exact absurd hnil hne
  · refine ⟨p, hp, ⟨err, he⟩, ?_⟩
    · rw [hmsg]
      simp only [String.data_append]
      exact ⟨"invalid path configuration ".data, ": ".data ++ err.data, by simp⟩

/-! ## Further facts about the compiler -/

/-- The pattern block, in detail: a non-empty pattern is compiled and stored, an empty one
leaves the rule as it is. -/
theorem compilePathRegex_ok_spec (lib : Lib A R T) (p q : Path A R T)
    (h : p.compilePathRegex lib = .ok q) :
    (p.PathRegex ≠ "" ∧ ∃ re, lib.regexpCompile p.PathRegex = .ok re ∧
      q = { p with pathRegex := some re }) ∨
    (p.PathRegex = "" ∧ q = p) := by
  unfold Path.compilePathRegex at h
  split at h
  · rename_i hr
    split at h
    · rename_i re hre
      cases h
      exact Or.inl ⟨hr, re, hre, rfl⟩
    · cases h
  · rename_i hr
    cases h
    exact Or.inr ⟨not_not.mp hr, rfl⟩

/-- The compiled pattern of a compiled rule. -/
theorem compile_ok_pathRegex (lib : Lib A R T) (p q : Path A R T)
    (h : p.compile lib = .ok q) :
    (p.PathRegex ≠ "" → ∃ re, lib.regexpCompile p.PathRegex = .ok re ∧ q.pathRegex = some re) ∧
    (p.PathRegex = "" → q.pathRegex = p.pathRegex) := by
  obtain ⟨_, _, p1, p2, h1, h2, h3⟩ := compile_ok_steps lib p q h
  have h23 : q.pathRegex = p1.pathRegex := by
    rcases compileContent_ok lib _ p2 h2 with ⟨_, rfl⟩ | ⟨_, t, _, rfl⟩ <;>
      rcases compileJSONData_ok lib _ q h3 with ⟨_, rfl⟩ | ⟨_, bytes, rfl, _⟩ <;> rfl
  rcases compilePathRegex_ok_spec lib p p1 h1 with ⟨hr, re, hre, rfl⟩ | ⟨hr, rfl⟩
  · exact ⟨fun _ => ⟨re, hre, h23⟩, fun he => absurd he hr⟩
  · exact ⟨fun hne => absurd hr hne, fun _ => h23⟩

/-- The stored JSON bytes of a compiled rule with JSON data: the marshalled bytes, compact
for a zero indent and indented otherwise, followed by a newline. -/
theorem compile_ok_jsonData (lib : Lib A R T) (p q : Path A R T)
    (h : p.compile lib = .ok q) (hj : p.JSONData ≠ []) :
    ∃ bytes, q.jsonData = bytes ++ "\n" ∧
      ((p.Indent = 0 ∧ lib.jsonMarshal p.JSONData = .ok bytes) ∨
       (p.Indent ≠ 0 ∧ ∃ indent, Repeat " " p.Indent = .ok indent ∧
          lib.jsonMarshalIndent p.JSONData "" indent = .ok bytes)) := by
  obtain ⟨_, _, p1, p2, h1, h2, h3⟩ := compile_ok_steps lib p q h
  obtain ⟨re, rfl⟩ := compilePathRegex_ok lib p p1 h1
  have hsame : p2.JSONData = p.JSONData ∧ p2.Indent = p.Indent := by
    rcases compileContent_ok lib _ p2 h2 with ⟨_, rfl⟩ | ⟨_, t, _, rfl⟩ <;> exact ⟨rfl, rfl⟩
  rcases compileJSONData_ok lib p2 q h3 with ⟨hnil, _⟩ | ⟨_, bytes, rfl, hb⟩
  · rw [hsame.1] at hnil
    exact absurd hnil hj
  · rw [hsame.1, hsame.2] at hb
    exact ⟨bytes, rfl, hb⟩

/-- Repeating a one-element list and flattening gives the element repeated. -/
theorem flatten_replicate_singleton {α : Type} (n : Nat) (x : α) :
    (List.replicate n [x]).flatten = List.replicate n x := by
  induction n with
  | zero => rfl
  | succ n ih => simp [List.replicate_succ, ih]

/-- A successful `Repeat` of a space has a count that is not negative and gives that many
spaces. -/
theorem Repeat_space_ok (count : Int) (indent : String) (h : Repeat " " count = .ok indent) :
    0 ≤ count ∧ indent.data = List.replicate count.toNat ' ' := by
  unfold Repeat at h
  split at h
  · cases h
  · rename_i hc
    cases h
    refine ⟨not_lt.mp hc, ?_⟩
    rw [String.join_eq]
    simp only [List.map_replicate]
    exact flatten_replicate_singleton _ _

/-- `Repeat` of a space succeeds for a count that is not negative. -/
theorem Repeat_space_nonneg (count : Int) (h : 0 ≤ count) :
    ∃ indent, Repeat " " count = .ok indent := by
  unfold Repeat
  rw [if_neg (not_lt.mpr h)]
  exact ⟨_, rfl⟩

/-- Every call of the loop of `ServeHTTP` is the call of the next handler or a call of one
of the rules. -/
theorem servePaths_mem (lib : Lib A R T) (req : Request) (ps : List (Path A R T)) :
    ∀ e ∈ servePaths lib ps req, e = Effect.Next req ∨ ∃ q ∈ ps, e ∈ q.respond lib req := by
  induction ps with
  | nil =>
    intro e he
    simp only [servePaths, List.mem_singleton] at he
    exact Or.inl he
  | cons p ps ih =>
    intro e he
    simp only [servePaths] at he
    split at he
    · exact Or.inr ⟨p, List.mem_cons_self _ _, he⟩
    · rcases ih e he with h | ⟨q, hq, hqe⟩
      · exact Or.inl h
      · exact Or.inr ⟨q, List.mem_cons_of_mem _ hq, hqe⟩

/-- Without a negative indent on a rule with JSON data, `New` returns: a handler or an
error. -/
theorem New_returns (lib : Lib A R T) (next : Handler) (config : Config A R T) (name : String)
    (hindent : ∀ q ∈ config.Paths, q.JSONData ≠ [] → 0 ≤ q.Indent) :
    (New lib next config name).isPanic = false := by
  cases hnew : New lib next config name with
  | ok a => rfl
  | error msg => rfl
  | panic msg =>
    exfalso
    unfold New at hnew
    split at hnew
    · cases hnew
    · split at hnew
      · cases hnew
      · cases hnew
      · rename_i m hps
        obtain ⟨q, hq, hj, hneg⟩ := compilePaths_panic lib _ m hps
        exact absurd (hindent q hq hj) (not_le.mpr hneg)

/-! ## Facts about the construction on the memory of the caller -/

/-- The loop of `New` never writes to the slice of the caller. -/
theorem newLoop_configPaths (lib : Lib A R T) (n i : Nat) (fr : NewFrame A R T) :
    (newLoop lib n i fr).1.configPaths = fr.configPaths := by
  induction n generalizing i fr with
  | zero => rfl
  | succ n ih =>
    simp only [newLoop]
    split
    · rfl
    · split
      · rfl
      · rfl
      · rw [ih]

/-- Writing at an index and taking the elements up to it. -/
theorem take_succ_set {α : Type} (l : List α) (i : Nat) (x : α) (h : i < l.length) :
    (l.set i x).take (i + 1) = l.take i ++ [x] := by
  induction l generalizing i with
  | nil => cases h
  | cons y ys ih =>
    cases i with
    | zero => simp
    | succ i =>
      simp only [List.set_cons_succ, List.take_succ_cons, List.cons_append, List.cons.injEq,
        true_and]
      exact ih i (Nat.lt_of_succ_lt_succ h)

/-- The loop of `New` on its memory does what `compilePaths` does on the elements from index
`i` on: the same error, the same abort, or the compiled rules written to `paths` from index
`i` on, what stands before them being kept. -/
theorem newLoop_compilePaths (lib : Lib A R T) (n i : Nat) (fr : NewFrame A R T)
    (hn : i + n = fr.configPaths.length) (hlen : fr.paths.length = fr.configPaths.length) :
    (∀ qs, compilePaths lib (fr.configPaths.drop i) = .ok qs →
      (newLoop lib n i fr).2 = .ok () ∧ (newLoop lib n i fr).1.paths = fr.paths.take i ++ qs) ∧
    (∀ msg, compilePaths lib (fr.configPaths.drop i) = .error msg →
      (newLoop lib n i fr).2 = .error msg) ∧
    (∀ msg, compilePaths lib (fr.configPaths.drop i) = .panic msg →
      (newLoop lib n i fr).2 = .panic msg) := by
  induction n generalizing i fr with
  | zero =>
    have hi : fr.configPaths.length ≤ i := by omega
    rw [List.drop_eq_nil_of_le hi]
    simp only [compilePaths, newLoop]
    refine ⟨?_, ?_, ?_⟩
    · intro qs hqs
      cases hqs
      refine ⟨trivial, ?_⟩
      rw [List.append_nil, List.take_of_length_le (by omega)]
    · intro msg h; cases h
    · intro msg h; cases h
  | succ n ih =>
    have hi : i < fr.configPaths.length := by omega
    have hget : fr.configPaths[i]? = some fr.configPaths[i] := List.getElem?_eq_getElem hi
    rw [List.drop_eq_getElem_cons hi]
    simp only [compilePaths, newLoop, hget]
    cases hc : fr.configPaths[i].compile lib with
    | error err =>
      simp only
      refine ⟨?_, ?_, ?_⟩
      · intro qs h; cases h
      · intro msg h; cases h; rfl
      · intro msg h; cases h
    | panic m =>
      simp only
      refine ⟨?_, ?_, ?_⟩
      · intro qs h; cases h
      · intro msg h; cases h
      · intro msg h; cases h; rfl
    | ok q =>
      simp only
      have hlen3 : (fr.paths.set i q).length = fr.configPaths.length := by
        rw [List.length_set]; exact hlen
      obtain ⟨ih1, ih2, ih3⟩ := ih (i + 1)
        { configPaths := fr.configPaths, p := q, paths := fr.paths.set i q }
        (by simp only; omega) hlen3
      simp only at ih1 ih2 ih3
      cases hrest : compilePaths lib (fr.configPaths.drop (i + 1)) with
      | ok qs =>
        simp only
        refine ⟨?_, ?_, ?_⟩
        · intro qs2 h
          cases h
          obtain ⟨h1, h2⟩ := ih1 qs hrest
          refine ⟨h1, ?_⟩
          rw [h2, take_succ_set _ _ _ (by omega), List.append_assoc]
          rfl
        · intro msg h; cases h
        · intro msg h; cases h
      | error m =>
        simp only
        refine ⟨?_, ?_, ?_⟩
        · intro qs h; cases h
        · intro msg h; cases h; exact ih2 m hrest
        · intro msg h; cases h
      | panic m =>
        simp only
        refine ⟨?_, ?_, ?_⟩
        · intro qs h; cases h
        · intro msg h; cases h
        · intro msg h; cases h; exact ih3 m hrest

/-! ## The claims -/

/-- C1. First match wins: for a handler built by `New` and a request that some rule
matches, there is a smallest index whose rule matches; the calls `ServeHTTP` makes are
exactly the calls of that rule (its status, then its JSON bytes or its template output);
all of them go to the response writer, so the next handler is not invoked; and the rules
after that index play no part, since any rule list with the same rules up to that index
gives the same calls. -/
theorem ServeHTTP_first_match_wins (lib : Lib A R T) (next : Handler) (config : Config A R T)
    (name : String) (a : StaticResponse A R T) (req : Request)
    (hnew : New lib next config name = .ok a)
    (hsome : ∃ q ∈ a.paths, q.isMatch lib req = true) :
    ∃ i, ∃ hi : i < a.paths.length,
      a.paths[i].isMatch lib req = true ∧
      (∀ j, ∀ hj : j < i, a.paths[j].isMatch lib req = false) ∧
      a.ServeHTTP lib req = a.paths[i].respond lib req ∧
      (∀ e ∈ a.ServeHTTP lib req, e.isSink = true) ∧
      (∀ b : StaticResponse A R T, b.paths.take (i + 1) = a.paths.take (i + 1) →
        b.ServeHTTP lib req = a.ServeHTTP lib req) := by
  obtain ⟨i, hi, hm, hfirst, hserve, hpre⟩ := servePaths_first_match lib req a.paths hsome
  refine ⟨i, hi, hm, hfirst, hserve, ?_, fun b hb => hpre b.paths hb⟩
  intro e he
  have he2 : e ∈ a.paths[i].respond lib req := by
    have : a.ServeHTTP lib req = a.paths[i].respond lib req := hserve
    rw [this] at he
    exact he
  exact respond_isSink lib a.paths[i] req
    (New_ok_renderer lib next config name a hnew _ (List.getElem_mem _)) e he2

/-- C1, at the handler of `overlapConfig` and the path `/a`, which both rules match: the
exact rule, declared first, answers. -/
theorem ServeHTTP_first_match_wins_witness :
    New Fragment.lib Fragment.noop Fragment.overlapConfig "static" = .ok Fragment.overlapHandler ∧
    (∀ q ∈ Fragment.overlapHandler.paths, q.isMatch Fragment.lib (Fragment.get "/a") = true) ∧
    Fragment.overlapHandler.ServeHTTP Fragment.lib (Fragment.get "/a") = [Effect.Write "exact\n"] ∧
    ∃ i, ∃ hi : i < Fragment.overlapHandler.paths.length,
      Fragment.overlapHandler.paths[i].isMatch Fragment.lib (Fragment.get "/a") = true ∧
      (∀ j, ∀ hj : j < i,
        Fragment.overlapHandler.paths[j].isMatch Fragment.lib (Fragment.get "/a") = false) ∧
      Fragment.overlapHandler.ServeHTTP Fragment.lib (Fragment.get "/a") =
        Fragment.overlapHandler.paths[i].respond Fragment.lib (Fragment.get "/a") ∧
      (∀ e ∈ Fragment.overlapHandler.ServeHTTP Fragment.lib (Fragment.get "/a"),
        e.isSink = true) ∧
      (∀ b : StaticResponse Fragment.Value Fragment.Regexp Fragment.Template,
        b.paths.take (i + 1) = Fragment.overlapHandler.paths.take (i + 1) →
        b.ServeHTTP Fragment.lib (Fragment.get "/a") =
          Fragment.overlapHandler.ServeHTTP Fragment.lib (Fragment.get "/a")) :=
  ⟨rfl,
   by
    intro q hq
    simp only [Fragment.overlapHandler, List.mem_cons, List.mem_singleton, List.not_mem_nil,
      or_false] at hq
    rcases hq with rfl | rfl <;> rfl,
   rfl,
   ServeHTTP_first_match_wins Fragment.lib Fragment.noop Fragment.overlapConfig "static"
    Fragment.overlapHandler (Fragment.get "/a") rfl ⟨_, List.mem_cons_self _ _, rfl⟩⟩

/-- C2. No match forwards untouched: for a handler built by `New` and a request that no
rule matches, `ServeHTTP` makes a single call, to the next handler with the request it was
given, and none on the response writer; the sink ends in the state the next handler alone
leaves it in, which for a next handler that does nothing and a fresh recorder is status 200
with an empty body. -/
theorem ServeHTTP_no_match_forwards (lib : Lib A R T) (next : Handler) (config : Config A R T)
    (name : String) (a : StaticResponse A R T) (req : Request)
    (hnew : New lib next config name = .ok a)
    (hnone : ∀ q ∈ a.paths, q.isMatch lib req = false) :
    a.ServeHTTP lib req = [Effect.Next req] ∧
    (∀ rw : ResponseRecorder, a.serve lib rw req = next rw req) ∧
    ((∀ rw r, next rw r = rw) →
      (a.serve lib NewRecorder req).Code = 200 ∧ (a.serve lib NewRecorder req).Body = "" ∧
      (a.serve lib NewRecorder req).wroteHeader = false ∧
      (a.serve lib NewRecorder req).HeaderMap = []) := by
  have hserve : a.ServeHTTP lib req = [Effect.Next req] := servePaths_no_match lib req a.paths hnone
  obtain ⟨_, _, hnext, _⟩ := New_ok lib next config name a hnew
  have hsink : ∀ rw : ResponseRecorder, a.serve lib rw req = next rw req := by
    intro rw
    simp only [StaticResponse.serve, hserve, ResponseRecorder.play, hnext]
  refine ⟨hserve, hsink, ?_⟩
  intro hnoop
  rw [hsink, hnoop]
  exact ⟨rfl, rfl, rfl, rfl⟩

/-- C2, at the handler of `overlapConfig` and the path `/not-found` of the test. -/
theorem ServeHTTP_no_match_forwards_witness :
    New Fragment.lib Fragment.noop Fragment.overlapConfig "static" = .ok Fragment.overlapHandler ∧
    (∀ q ∈ Fragment.overlapHandler.paths,
      q.isMatch Fragment.lib (Fragment.get "/not-found") = false) ∧
    Fragment.overlapHandler.ServeHTTP Fragment.lib (Fragment.get "/not-found") =
      [Effect.Next (Fragment.get "/not-found")] ∧
    (Fragment.overlapHandler.serve Fragment.lib NewRecorder (Fragment.get "/not-found")).Code = 200 ∧
    (Fragment.overlapHandler.serve Fragment.lib NewRecorder (Fragment.get "/not-found")).Body = "" :=
  have hnone : ∀ q ∈ Fragment.overlapHandler.paths,
      q.isMatch Fragment.lib (Fragment.get "/not-found") = false := by
    intro q hq
    simp only [Fragment.overlapHandler, List.mem_cons, List.mem_singleton, List.not_mem_nil,
      or_false] at hq
    rcases hq with rfl | rfl <;> rfl
  have h := ServeHTTP_no_match_forwards Fragment.lib Fragment.noop Fragment.overlapConfig
    "static" Fragment.overlapHandler (Fragment.get "/not-found") rfl hnone
  ⟨rfl, hnone, h.1, (h.2.2 (fun _ _ => rfl)).1, (h.2.2 (fun _ _ => rfl)).2.1⟩

/-- C3. `New` on a configuration whose `Paths` list is empty returns the error "paths cannot
be empty" and no handler, for every library, next handler and name. -/
theorem New_empty_paths (lib : Lib A R T) (next : Handler) (name : String) :
    New lib next { Paths := [] } name = .error "paths cannot be empty" ∧
    New lib next CreateConfig name = .error "paths cannot be empty" ∧
    (New lib next { Paths := [] } name).value? = none ∧
    (New lib next { Paths := [] } name).isError = true :=
  ⟨rfl, rfl, rfl, rfl⟩

/-- C4, at `abortingConfig`: the second rule has neither a path nor a pattern, yet `New`
does not return an error, because compiling the first rule aborts in `strings.Repeat` on
its negative indent. No handler is returned either. -/
theorem New_invalid_rule_after_abort :
    (∃ p ∈ Fragment.abortingConfig.Paths, p.Path = "" ∧ p.PathRegex = "") ∧
    New Fragment.lib Fragment.noop Fragment.abortingConfig "static" =
      .panic "strings: negative Repeat count" ∧
    (New Fragment.lib Fragment.noop Fragment.abortingConfig "static").isError = false ∧
    (New Fragment.lib Fragment.noop Fragment.abortingConfig "static").value? = none :=
  ⟨⟨{ Content := "never reached" }, by simp [Fragment.abortingConfig], rfl, rfl⟩, rfl, rfl, rfl⟩

/-- C5. JSON precedence: when the selected rule (the first that matches) was configured with
both non-empty JSON data and non-empty content, `ServeHTTP` makes the status write if the
status is set, sets the JSON content type and writes the stored JSON bytes, which are
non-empty; these bytes are the only body write; and the template, though parsed, is never
run, since the calls are the same whatever the template executor would do. -/
theorem ServeHTTP_json_precedence (lib : Lib A R T) (next : Handler) (config : Config A R T)
    (name : String) (a : StaticResponse A R T) (req : Request) (i : Nat)
    (hnew : New lib next config name = .ok a)
    (hi : i < config.Paths.length) (hi2 : i < a.paths.length)
    (hjson : config.Paths[i].JSONData ≠ []) (hcontent : config.Paths[i].Content ≠ "")
    (hm : a.paths[i].isMatch lib req = true)
    (hfirst : ∀ j, ∀ hj : j < i, a.paths[j].isMatch lib req = false) :
    a.paths[i].jsonData.length > 0 ∧
    (∃ t, a.paths[i].template = some t) ∧
    a.ServeHTTP lib req =
      (if a.paths[i].Status ≠ 0 then [Effect.WriteHeader a.paths[i].Status] else []) ++
        [Effect.HeaderSet "Content-Type" "application/json", Effect.Write a.paths[i].jsonData] ∧
    (a.ServeHTTP lib req).filterMap Effect.written? = [a.paths[i].jsonData] ∧
    (∀ exec, a.ServeHTTP { lib with templateExecute := exec } req = a.ServeHTTP lib req) := by
  have hc := (New_ok_getElem lib next config name a hnew).2 i hi hi2
  obtain ⟨_, _, _, _, _, _, ht, hj, _⟩ := compile_ok_spec lib _ _ hc
  obtain ⟨bytes, hb⟩ := hj hjson
  obtain ⟨t, ht1, _⟩ := ht hcontent
  have hlen : a.paths[i].jsonData.length > 0 := by
    rw [hb, String.length_append]
    exact Nat.lt_of_lt_of_le (by decide) (Nat.le_add_left _ _)
  have hserve : ∀ lib2 : Lib A R T, (∀ q : Path A R T, q.isMatch lib2 req = q.isMatch lib req) →
      a.ServeHTTP lib2 req =
        (if a.paths[i].Status ≠ 0 then [Effect.WriteHeader a.paths[i].Status] else []) ++
          [Effect.HeaderSet "Content-Type" "application/json",
            Effect.Write a.paths[i].jsonData] := by
    intro lib2 h2
    have h := servePaths_at lib2 req a.paths i hi2 (by rw [h2]; exact hm)
      (fun j hj => by rw [h2]; exact hfirst j hj)
    rw [respond_json lib2 _ req hlen] at h
    exact h
  have h1 := hserve lib (fun _ => rfl)
  refine ⟨hlen, ⟨t, ht1⟩, h1, ?_, ?_⟩
  · rw [h1]
    split <;> rfl
  · intro exec
    rw [h1]
    exact hserve _ (fun q => isMatch_templateExecute lib exec q req)

/-- C5, at the handler of `bothConfig`: the content holds an action that fails when run, and
the response is the JSON bytes all the same. -/
theorem ServeHTTP_json_precedence_witness :
    New Fragment.lib Fragment.noop Fragment.bothConfig "static" = .ok Fragment.bothHandler ∧
    Fragment.bothHandler.ServeHTTP Fragment.lib (Fragment.get "/both") =
      [Effect.WriteHeader 202, Effect.HeaderSet "Content-Type" "application/json",
        Effect.Write "\x7b\"a\":1\x7d\n"] ∧
    (Fragment.bothHandler.ServeHTTP Fragment.lib (Fragment.get "/both")).filterMap
      Effect.written? = ["\x7b\"a\":1\x7d\n"] :=
  have h := ServeHTTP_json_precedence Fragment.lib Fragment.noop Fragment.bothConfig "static"
    Fragment.bothHandler (Fragment.get "/both") 0 rfl (Nat.succ_pos _) (Nat.succ_pos _)
    (by simp [Fragment.bothConfig]) (by simp [Fragment.bothConfig]) rfl
    (fun j hj => absurd hj (Nat.not_lt_zero j))
  ⟨rfl, h.2.2.1, h.2.2.2.1⟩

/-- C6, at the handler of `failingConfig`, whose three templates fail when run. For `/x`,
with status override 201, `ServeHTTP` writes status 201 first, so the later status write
of `http.Error` is ignored: the response has status 201, not 500. For `/y` the text `abc`
is written before the failure and commits status 200. Only for `/z`, with no override and
no output, the response has status 500; its body is the error text and a newline. -/
theorem ServeHTTP_render_error_status :
    New Fragment.lib Fragment.noop Fragment.failingConfig "static" =
      .ok Fragment.failingHandler ∧
    Fragment.failingHandler.ServeHTTP Fragment.lib (Fragment.get "/x") =
      [Effect.WriteHeader 201, Effect.HeaderDel "Content-Length",
        Effect.HeaderSet "Content-Type" "text/plain; charset=utf-8",
        Effect.HeaderSet "X-Content-Type-Options" "nosniff",
        Effect.WriteHeader 500, Effect.Write (Fragment.nopeError ++ "\n")] ∧
    (Fragment.failingHandler.serve Fragment.lib NewRecorder (Fragment.get "/x")).Code = 201 ∧
    (Fragment.failingHandler.serve Fragment.lib NewRecorder (Fragment.get "/x")).Body =
      Fragment.nopeError ++ "\n" ∧
    (Fragment.failingHandler.serve Fragment.lib NewRecorder (Fragment.get "/y")).Code = 200 ∧
    (Fragment.failingHandler.serve Fragment.lib NewRecorder (Fragment.get "/y")).Body =
      "abc" ++ Fragment.nopeError ++ "\n" ∧
    (Fragment.failingHandler.serve Fragment.lib NewRecorder (Fragment.get "/z")).Code = 500 ∧
    (Fragment.failingHandler.serve Fragment.lib NewRecorder (Fragment.get "/z")).Body =
      Fragment.nopeError ++ "\n" :=
  ⟨rfl, rfl, rfl, rfl, rfl, rfl, rfl, rfl⟩

/-- C7, at the handler of `jsonConfig`. For `/j`, with status override 201, `ServeHTTP`
writes the status before it sets the content type, so the headers are committed without
it: the response has no `Content-Type: application/json`. For `/k`, without override, the
response has it. The body is the stored bytes in both. -/
theorem ServeHTTP_json_content_type :
    New Fragment.lib Fragment.noop Fragment.jsonConfig "static" = .ok Fragment.jsonHandler ∧
    Fragment.jsonHandler.ServeHTTP Fragment.lib (Fragment.get "/j") =
      [Effect.WriteHeader 201, Effect.HeaderSet "Content-Type" "application/json",
        Effect.Write "\x7b\"a\":1\x7d\n"] ∧
    (Fragment.jsonHandler.serve Fragment.lib NewRecorder (Fragment.get "/j")).Get
      "Content-Type" = none ∧
    (Fragment.jsonHandler.serve Fragment.lib NewRecorder (Fragment.get "/j")).Code = 201 ∧
    (Fragment.jsonHandler.serve Fragment.lib NewRecorder (Fragment.get "/j")).Body =
      "\x7b\"a\":1\x7d\n" ∧
    (Fragment.jsonHandler.serve Fragment.lib NewRecorder (Fragment.get "/k")).Get
      "Content-Type" = some "application/json" ∧
    (Fragment.jsonHandler.serve Fragment.lib NewRecorder (Fragment.get "/k")).Body =
      "\x7b\"a\":1\x7d\n" :=
  ⟨rfl, rfl, rfl, rfl, rfl, rfl, rfl⟩

/-- C8, as stated, fails at `doubleNewline`: the content "a\n\n" compiles, is stored
unchanged and so ends with two newlines. -/
theorem compile_content_double_newline :
    Fragment.doubleNewline.compile Fragment.lib = .ok Fragment.doubleNewlineCompiled ∧
    Fragment.doubleNewline.Content ≠ "" ∧
    HasSuffix Fragment.doubleNewlineCompiled.Content "\n" = true ∧
    HasSuffix Fragment.doubleNewlineCompiled.Content "\n\n" = true :=
  ⟨rfl, by decide, by decide, by decide⟩

/-- C8, amended. For a rule with non-empty content that compiles, the stored content ends
with a newline: it is the configured content when that already ends with a newline, and
the configured content followed by one newline otherwise. It ends with two newlines only
when the configured content did. The stored content is the text parsed as the template. -/
theorem compile_content_trailing_newline (lib : Lib A R T) (p q : Path A R T)
    (h : p.compile lib = .ok q) (hne : p.Content ≠ "") :
    HasSuffix q.Content "\n" = true ∧
    q.Content = (if HasSuffix p.Content "\n" then p.Content else p.Content ++ "\n") ∧
    HasSuffix q.Content "\n\n" = HasSuffix p.Content "\n\n" ∧
    ∃ t, q.template = some t ∧
      lib.templateParse (if p.Path = "" then p.PathRegex else p.Path) q.Content = .ok t := by
  obtain ⟨_, _, _, _, _, hcontent, ht, _, _⟩ := compile_ok_spec lib p q h
  rw [if_neg hne] at hcontent
  refine ⟨?_, hcontent, ?_, ht hne⟩
  · rw [hcontent]
    by_cases hs : HasSuffix p.Content "\n" = true
    · rw [if_pos hs]; exact hs
    · rw [if_neg hs]; exact hasSuffix_append_newline _
  · rw [hcontent]
    by_cases hs : HasSuffix p.Content "\n" = true
    · rw [if_pos hs]
    · rw [if_neg hs]
      have hs2 : HasSuffix p.Content "\n" = false := Bool.eq_false_iff.mpr hs
      rw [hasSuffix_two_append _ hs2]
      symm
      apply Bool.eq_false_iff.mpr
      intro h2
      exact hs (hasSuffix_one_of_two _ h2)

/-- C8, amended, at the first rule of the test: "Hello World!" is stored as
"Hello World!\n". -/
theorem compile_content_trailing_newline_witness :
    Fragment.helloWorld.compile Fragment.lib = .ok Fragment.helloWorldCompiled ∧
    Fragment.helloWorld.Content ≠ "" ∧
    Fragment.helloWorldCompiled.Content = "Hello World!\n" ∧
    HasSuffix Fragment.helloWorldCompiled.Content "\n" = true ∧
    HasSuffix Fragment.helloWorldCompiled.Content "\n\n" =
      HasSuffix Fragment.helloWorld.Content "\n\n" :=
  have h := compile_content_trailing_newline Fragment.lib Fragment.helloWorld
    Fragment.helloWorldCompiled rfl (by decide)
  ⟨rfl, by decide, rfl, h.1, h.2.2.1⟩

/-- C9. Exact-path rule renders content plus newline: let the first rule of a configuration
have a non-empty exact path, status 0, no JSON data and a literal content without actions
that does not end with a newline, and let `New` succeed. For a request with that path,
`ServeHTTP` makes a single call, a write of the content followed by one newline; there is
no status write, so a fresh sink ends with the default status 200 and that body. The
library is assumed to treat literal text as text/template does. -/
theorem ServeHTTP_exact_path_content (lib : Lib A R T) (hlit : lib.LiteralText)
    (next : Handler) (p : Path A R T) (rest : List (Path A R T)) (name : String)
    (a : StaticResponse A R T) (req : Request)
    (hnew : New lib next { Paths := p :: rest } name = .ok a)
    (hpath : p.Path ≠ "") (hstatus : p.Status = 0)
    (hjson : p.JSONData = []) (hraw : p.jsonData = "")
    (hfree : ActionFree p.Content) (hnl : HasSuffix p.Content "\n" = false)
    (hreq : req.URL.Path = p.Path) :
    a.ServeHTTP lib req = [Effect.Write (p.Content ++ "\n")] ∧
    (a.serve lib NewRecorder req).Code = 200 ∧
    (a.serve lib NewRecorder req).Body = p.Content ++ "\n" := by
  obtain ⟨_, hps, _, _⟩ := New_ok lib next _ name a hnew
  have hall := compilePaths_ok lib _ _ hps
  simp only at hall
  cases hpaths : a.paths with
  | nil => rw [hpaths] at hall; cases hall
  | cons q qs =>
    rw [hpaths] at hall
    cases hall with
    | cons hq _ =>
      obtain ⟨_, hne, _⟩ := compile_ok_steps lib p q hq
      have hcne : p.Content ≠ "" := fun hc => hne ⟨hc, by simp [hjson]⟩
      obtain ⟨hqpath, _, _, _, hqstatus, hqcontent, hqt, _, hqj⟩ := compile_ok_spec lib p q hq
      rw [if_neg hcne, if_neg (Bool.eq_false_iff.mp hnl)] at hqcontent
      obtain ⟨t, ht, hparse⟩ := hqt hcne
      rw [hqcontent] at hparse
      have htext : p.Content ++ "\n" ≠ "" := by
        intro he
        have hd := congrArg String.data he
        rw [String.data_append] at hd
        exact List.append_ne_nil_of_right_ne_nil _ (by decide) hd
      obtain ⟨t2, hparse2, hexec⟩ := hlit (if p.Path = "" then p.PathRegex else p.Path)
        (p.Content ++ "\n") htext (actionFree_append_newline _ hfree)
      have htt : t = t2 := by
        rw [hparse] at hparse2
        cases hparse2
        rfl
      subst htt
      have hmatch : q.isMatch lib req = true := by
        unfold Path.isMatch
        rw [hqpath, hreq]
        simp [hpath]
      have hqjson : ¬ q.jsonData.length > 0 := by
        rw [hqj hjson, hraw]
        decide
      have hserve : a.ServeHTTP lib req = [Effect.Write (p.Content ++ "\n")] := by
        unfold StaticResponse.ServeHTTP
        rw [hpaths]
        simp only [servePaths, hmatch, if_true]
        unfold Path.respond
        rw [hqstatus, hstatus, if_neg hqjson, ht]
        simp [hexec]
      refine ⟨hserve, ?_, ?_⟩
      · simp only [StaticResponse.serve, hserve, ResponseRecorder.play]
        rfl
      · simp only [StaticResponse.serve, hserve, ResponseRecorder.play]
        show "" ++ (p.Content ++ "\n") = p.Content ++ "\n"
        exact String.empty_append _

/-- C9, at the test: path "/" and content "Hello World!" give the body "Hello World!\n". -/
theorem ServeHTTP_exact_path_content_witness :
    New Fragment.lib Fragment.noop Fragment.testConfig "staticresponse-plugin" =
      .ok Fragment.testHandler ∧
    ActionFree "Hello World!" ∧ HasSuffix "Hello World!" "\n" = false ∧
    Fragment.testHandler.ServeHTTP Fragment.lib (Fragment.get "/") =
      [Effect.Write ("Hello World!" ++ "\n")] ∧
    (Fragment.testHandler.serve Fragment.lib NewRecorder (Fragment.get "/")).Code = 200 ∧
    (Fragment.testHandler.serve Fragment.lib NewRecorder (Fragment.get "/")).Body =
      "Hello World!" ++ "\n" :=
  have h := ServeHTTP_exact_path_content Fragment.lib Fragment.lib_literalText Fragment.noop
    { Path := "/", Content := "Hello World!" }
    [{ PathRegex := "^/regex/(.*)", Content := "Hello Regex!" }] "staticresponse-plugin"
    Fragment.testHandler (Fragment.get "/") rfl (by decide) rfl rfl rfl (by decide)
    (by decide) rfl
  ⟨rfl, by decide, by decide, h.1, h.2.1, h.2.2⟩

/-- C10, at the test. For the path "/" the body is "Hello World!\n", not the configured
"Hello World!" the test expects; for "/regex/foo", "/regex/bar" and "/regex/baz" it is
"Hello Regex!\n", not "Hello Regex!". The status is 200. -/
theorem ServeHTTP_test_bodies :
    New Fragment.lib Fragment.noop Fragment.testConfig "staticresponse-plugin" =
      .ok Fragment.testHandler ∧
    (Fragment.testHandler.serve Fragment.lib NewRecorder (Fragment.get "/")).Code = 200 ∧
    (Fragment.testHandler.serve Fragment.lib NewRecorder (Fragment.get "/")).Body =
      "Hello World!\n" ∧
    (Fragment.testHandler.serve Fragment.lib NewRecorder (Fragment.get "/")).Body ≠
      "Hello World!" ∧
    (Fragment.testHandler.serve Fragment.lib NewRecorder (Fragment.get "/regex/foo")).Body =
      "Hello Regex!\n" ∧
    (Fragment.testHandler.serve Fragment.lib NewRecorder (Fragment.get "/regex/bar")).Body =
      "Hello Regex!\n" ∧
    (Fragment.testHandler.serve Fragment.lib NewRecorder (Fragment.get "/regex/baz")).Body =
      "Hello Regex!\n" ∧
    (Fragment.testHandler.serve Fragment.lib NewRecorder (Fragment.get "/regex/foo")).Body ≠
      "Hello Regex!" :=
  have h1 : (Fragment.testHandler.serve Fragment.lib NewRecorder (Fragment.get "/")).Body =
      "Hello World!\n" := rfl
  have h2 : (Fragment.testHandler.serve Fragment.lib NewRecorder
      (Fragment.get "/regex/foo")).Body = "Hello Regex!\n" := rfl
  ⟨rfl, rfl, h1, by rw [h1]; decide, h2, rfl, rfl, by rw [h2]; decide⟩

/-- C11, at `patternOnlyConfig`: the rule has the pattern "^/x" and no path, and fails for
want of a response. The error of `New` is led by the empty `Path` and holds the pattern
nowhere. -/
theorem New_error_without_pattern :
    New Fragment.lib Fragment.noop Fragment.patternOnlyConfig "static" =
      .error "invalid path configuration : content or jsonData must be set" ∧
    ¬ ("^/x".data <:+: "invalid path configuration : content or jsonData must be set".data) :=
  ⟨rfl, by decide⟩

/-- C12. On success `New` preserves the rule list: the handler has as many rules as the
configuration, and the rule at each index carries the `Path`, `PathRegex`, `JSONData`,
`Indent` and `Status` of the configured rule at that index; its `Content` is the configured
one, followed by a newline when the configured one is non-empty and does not end with one. -/
theorem New_preserves_rules (lib : Lib A R T) (next : Handler) (config : Config A R T)
    (name : String) (a : StaticResponse A R T) (hnew : New lib next config name = .ok a) :
    a.paths.length = config.Paths.length ∧
    ∀ i, ∀ hi : i < config.Paths.length, ∀ hi2 : i < a.paths.length,
      a.paths[i].Path = config.Paths[i].Path ∧
      a.paths[i].PathRegex = config.Paths[i].PathRegex ∧
      a.paths[i].JSONData = config.Paths[i].JSONData ∧
      a.paths[i].Indent = config.Paths[i].Indent ∧
      a.paths[i].Status = config.Paths[i].Status ∧
      a.paths[i].Content =
        (if config.Paths[i].Content = "" ∨ HasSuffix config.Paths[i].Content "\n" = true
          then config.Paths[i].Content else config.Paths[i].Content ++ "\n") := by
  obtain ⟨hlen, hget⟩ := New_ok_getElem lib next config name a hnew
  refine ⟨hlen, fun i hi hi2 => ?_⟩
  obtain ⟨h1, h2, h3, h4, h5, h6, _⟩ := compile_ok_spec lib _ _ (hget i hi hi2)
  refine ⟨h1, h2, h3, h4, h5, ?_⟩
  rw [h6]
  by_cases hc : config.Paths[i].Content = ""
  · simp [hc]
  · by_cases hs : HasSuffix config.Paths[i].Content "\n" = true
    · simp [hc, hs]
    · simp [hc, hs]

/-- C12, at `overlapConfig`: two rules in, two rules out, in the same order. -/
theorem New_preserves_rules_witness :
    New Fragment.lib Fragment.noop Fragment.overlapConfig "static" = .ok Fragment.overlapHandler ∧
    Fragment.overlapHandler.paths.length = Fragment.overlapConfig.Paths.length ∧
    Fragment.overlapHandler.paths.map (fun q => (q.Path, q.PathRegex, q.Status, q.Content)) =
      [("/a", "", 0, "exact\n"), ("", "^/a", 201, "pattern\n")] :=
  ⟨rfl,
   (New_preserves_rules Fragment.lib Fragment.noop Fragment.overlapConfig "static"
      Fragment.overlapHandler rfl).1,
   rfl⟩

/-- C13. Status before body: for the selected rule (the first that matches), if its status
is not zero the first call of `ServeHTTP` is the status write with exactly that code, so it
comes before every header and body write; if its status is zero and rendering succeeds
(stored JSON bytes, or a template that runs without error), `ServeHTTP` makes no status
write at all. -/
theorem ServeHTTP_status_first (lib : Lib A R T) (a : StaticResponse A R T) (req : Request)
    (i : Nat) (hi : i < a.paths.length)
    (hm : a.paths[i].isMatch lib req = true)
    (hfirst : ∀ j, ∀ hj : j < i, a.paths[j].isMatch lib req = false) :
    (a.paths[i].Status ≠ 0 →
      ∃ rest, a.ServeHTTP lib req = Effect.WriteHeader a.paths[i].Status :: rest) ∧
    (a.paths[i].Status = 0 →
      (a.paths[i].jsonData.length > 0 ∨
        ∃ t, a.paths[i].template = some t ∧
          (lib.templateExecute t [("Request", req)]).2 = none) →
      ∀ e ∈ a.ServeHTTP lib req, ∀ code, e ≠ Effect.WriteHeader code) := by
  have hserve : a.ServeHTTP lib req = a.paths[i].respond lib req :=
    servePaths_at lib req a.paths i hi hm hfirst
  rw [hserve]
  generalize a.paths[i] = q
  constructor
  · intro hs
    unfold Path.respond
    rw [if_pos hs]
    exact ⟨_, rfl⟩
  · intro hs hr e he code hcode
    subst hcode
    unfold Path.respond at he
    rw [if_neg (not_not.mpr hs), List.nil_append] at he
    by_cases hj : q.jsonData.length > 0
    · rw [if_pos hj] at he
      simp at he
    · rw [if_neg hj] at he
      rcases hr with hr | ⟨t, ht, hexec⟩
      · exact hj hr
      · rw [ht] at he
        simp only [hexec, List.append_nil] at he
        obtain ⟨b, _, hb⟩ := List.mem_map.mp he
        cases hb

/-- C13, at the handler of `overlapConfig`: the path "/ab" is matched by the pattern rule
only, whose status 201 is written first; the path "/a" is answered by the exact rule, with
status zero, without any status write. -/
theorem ServeHTTP_status_first_witness :
    Fragment.overlapHandler.ServeHTTP Fragment.lib (Fragment.get "/ab") =
      [Effect.WriteHeader 201, Effect.Write "pattern\n"] ∧
    (∃ rest, Fragment.overlapHandler.ServeHTTP Fragment.lib (Fragment.get "/ab") =
      Effect.WriteHeader 201 :: rest) ∧
    Fragment.overlapHandler.ServeHTTP Fragment.lib (Fragment.get "/a") =
      [Effect.Write "exact\n"] ∧
    (∀ e ∈ Fragment.overlapHandler.ServeHTTP Fragment.lib (Fragment.get "/a"),
      ∀ code, e ≠ Effect.WriteHeader code) :=
  have h1 := ServeHTTP_status_first Fragment.lib Fragment.overlapHandler (Fragment.get "/ab") 1
    (by decide) rfl
    (fun j hj => by
      have hj0 : j = 0 := by omega
      subst hj0
      rfl)
  have h0 := ServeHTTP_status_first Fragment.lib Fragment.overlapHandler (Fragment.get "/a") 0
    (by decide) rfl (fun j hj => absurd hj (Nat.not_lt_zero j))
  ⟨rfl, h1.1 (by decide), rfl, h0.2 rfl (Or.inr ⟨_, rfl, rfl⟩)⟩

/-- C14. Precomputed JSON payload: for a rule with non-empty JSON data, a successful
`compile` (which implies an indent that is not negative) stores the marshalled bytes
followed by one newline. For a zero indent the bytes are those of `json.Marshal`, the compact form; as that form
holds no newline (a property of the library, assumed), the stored bytes hold exactly one,
the last. For a positive indent they are those of `json.MarshalIndent` with an empty line
lead and an indent of `Indent` spaces. At dispatch the body write is the stored bytes. -/
theorem compile_json_payload (lib : Lib A R T) (p q : Path A R T)
    (h : p.compile lib = .ok q) (hj : p.JSONData ≠ [])
    (hcompact : ∀ bytes, lib.jsonMarshal p.JSONData = .ok bytes → '\n' ∉ bytes.data) :
    0 ≤ p.Indent ∧
    (p.Indent = 0 → ∃ bytes, lib.jsonMarshal p.JSONData = .ok bytes ∧
      q.jsonData = bytes ++ "\n" ∧ q.jsonData.data.count '\n' = 1) ∧
    (0 < p.Indent → ∃ bytes indent, indent.data = List.replicate p.Indent.toNat ' ' ∧
      lib.jsonMarshalIndent p.JSONData "" indent = .ok bytes ∧ q.jsonData = bytes ++ "\n") ∧
    HasSuffix q.jsonData "\n" = true ∧
    (∀ req, q.respond lib req =
      (if q.Status ≠ 0 then [Effect.WriteHeader q.Status] else []) ++
        [Effect.HeaderSet "Content-Type" "application/json", Effect.Write q.jsonData]) := by
  obtain ⟨bytes, hq, hb⟩ := compile_ok_jsonData lib p q h hj
  have hlen : q.jsonData.length > 0 := by
    rw [hq, String.length_append]
    exact Nat.lt_of_lt_of_le (by decide) (Nat.le_add_left _ _)
  refine ⟨?_, ?_, ?_, ?_, fun req => respond_json lib q req hlen⟩
  · rcases hb with ⟨h0, _⟩ | ⟨_, indent, hr, _⟩
    · omega
    · exact (Repeat_space_ok _ _ hr).1
  · intro h0
    rcases hb with ⟨_, hm⟩ | ⟨hne, _⟩
    · refine ⟨bytes, hm, hq, ?_⟩
      rw [hq, String.data_append, List.count_append,
        List.count_eq_zero.mpr (hcompact bytes hm)]
      rfl
    · exact absurd h0 hne
  · intro hpos
    rcases hb with ⟨h0, _⟩ | ⟨_, indent, hr, hm⟩
    · omega
    · exact ⟨bytes, indent, (Repeat_space_ok _ _ hr).2, hm, hq⟩
  · rw [hq]
    exact hasSuffix_append_newline _

/-- C14, at `compactRule` (no indent) and `indentRule` (indent 2). -/
theorem compile_json_payload_witness :
    Fragment.compactRule.compile Fragment.lib = .ok Fragment.compactRuleCompiled ∧
    Fragment.compactRuleCompiled.jsonData = "\x7b\"a\":1,\"b\":\"x\"\x7d\n" ∧
    Fragment.compactRuleCompiled.jsonData.data.count '\n' = 1 ∧
    Fragment.indentRule.compile Fragment.lib = .ok Fragment.indentRuleCompiled ∧
    (∃ bytes indent, indent.data = List.replicate 2 ' ' ∧
      Fragment.lib.jsonMarshalIndent Fragment.indentRule.JSONData "" indent = .ok bytes ∧
      Fragment.indentRuleCompiled.jsonData = bytes ++ "\n") ∧
    Fragment.indentRuleCompiled.jsonData = "\x7b\n  \"a\": 1,\n  \"b\": \"x\"\n\x7d\n" :=
  have hc : ∀ bytes, Fragment.lib.jsonMarshal Fragment.compactRule.JSONData = .ok bytes →
      '\n' ∉ bytes.data := by
    intro bytes hb
    have hb2 : bytes = "\x7b\"a\":1,\"b\":\"x\"\x7d" := by
      have : Fragment.lib.jsonMarshal Fragment.compactRule.JSONData =
          .ok "\x7b\"a\":1,\"b\":\"x\"\x7d" := rfl
      rw [this] at hb
      cases hb
      rfl
    subst hb2
    decide
  have hi : ∀ bytes, Fragment.lib.jsonMarshal Fragment.indentRule.JSONData = .ok bytes →
      '\n' ∉ bytes.data := hc
  have h1 := compile_json_payload Fragment.lib Fragment.compactRule
    Fragment.compactRuleCompiled rfl (by simp [Fragment.compactRule]) hc
  have h2 := compile_json_payload Fragment.lib Fragment.indentRule
    Fragment.indentRuleCompiled rfl (by simp [Fragment.indentRule]) hi
  ⟨rfl, rfl, (h1.2.1 rfl).choose_spec.2.2, rfl, h2.2.2.1 (by decide), rfl⟩

/-- C15. Trailing-newline normalisation is insensitive to one newline and idempotent: for a
non-empty content that does not end with a newline, compiling the rule and compiling it
with a newline appended to the content give the same result, error or rule; on success
the stored content is the content followed by one newline; and compiling the rule with
the stored content in place of the configured one gives the same rule again. -/
theorem compile_newline_insensitive (lib : Lib A R T) (p : Path A R T)
    (hne : p.Content ≠ "") (hnl : HasSuffix p.Content "\n" = false) :
    ({ p with Content := p.Content ++ "\n" } : Path A R T).compile lib = p.compile lib ∧
    (∀ q, p.compile lib = .ok q → q.Content = p.Content ++ "\n") ∧
    (∀ q, ({ p with Content := p.Content ++ "\n" } : Path A R T).compile lib = .ok q →
      q.Content = p.Content ++ "\n") ∧
    (∀ q, p.compile lib = .ok q →
      ({ p with Content := q.Content } : Path A R T).compile lib = .ok q) := by
  have hne2 : p.Content ++ "\n" ≠ "" := by
    intro he
    have hd := congrArg String.data he
    rw [String.data_append] at hd
    exact List.append_ne_nil_of_right_ne_nil _ (by decide) hd
  have hsame : ({ p with Content := p.Content ++ "\n" } : Path A R T).compile lib =
      p.compile lib := by
    unfold Path.compile Path.compilePathRegex
    simp only [hne, hne2, false_and, if_false]
    by_cases hr : p.PathRegex = ""
    · simp only [hr, ne_eq, not_true_eq_false, if_false]
      unfold Path.compileContent
      simp only [hne, hne2, ne_eq, not_false_eq_true, if_true, hnl,
        hasSuffix_append_newline, Bool.false_eq_true, hr, if_false]
    · simp only [ne_eq, hr, not_false_eq_true, if_true]
      cases lib.regexpCompile p.PathRegex with
      | error err => rfl
      | ok re =>
        simp only
        unfold Path.compileContent
        simp only [hne, hne2, ne_eq, not_false_eq_true, if_true, hnl,
          hasSuffix_append_newline, Bool.false_eq_true, if_false]
  have hcontent : ∀ q, p.compile lib = .ok q → q.Content = p.Content ++ "\n" := by
    intro q hq
    obtain ⟨_, _, _, _, _, hc, _⟩ := compile_ok_spec lib p q hq
    rw [hc, if_neg hne, if_neg (Bool.eq_false_iff.mp hnl)]
  refine ⟨hsame, hcontent, fun q hq => hcontent q (hsame ▸ hq), ?_⟩
  intro q hq
  rw [hcontent q hq, hsame]
  exact hq

/-- C15, at the first rule of the test: "Hello World!" and "Hello World!\n" compile to the
same rule, with content "Hello World!\n". -/
theorem compile_newline_insensitive_witness :
    Fragment.helloWorld.compile Fragment.lib = .ok Fragment.helloWorldCompiled ∧
    ({ Fragment.helloWorld with Content := "Hello World!\n" } :
      Path Fragment.Value Fragment.Regexp Fragment.Template).compile Fragment.lib =
      .ok Fragment.helloWorldCompiled ∧
    Fragment.helloWorldCompiled.Content = "Hello World!\n" ∧
    Fragment.helloWorldCompiled.compile Fragment.lib =
      .ok { Fragment.helloWorldCompiled with template := some [Fragment.Node.text "Hello World!\n"] } :=
  have h := compile_newline_insensitive Fragment.lib Fragment.helloWorld (by decide) (by decide)
  ⟨rfl, h.1.trans rfl, h.2.1 _ rfl, rfl⟩

/-- C16. Matcher semantics: a rule compiled from a configured rule (whose unexported
`pathRegex` is unset, as in any configuration) matches a request exactly when its path is
non-empty and equal to the request path, or its pattern is non-empty and the regular
expression compiled from it finds a match in the request path. So a rule with both matches
when either does, and a rule with an empty path matches through its pattern only, also for
a request whose path is empty. -/
theorem isMatch_compiled (lib : Lib A R T) (p q : Path A R T) (req : Request)
    (h : p.compile lib = .ok q) (hraw : p.pathRegex = none) :
    (q.isMatch lib req = true ↔
      (q.Path ≠ "" ∧ q.Path = req.URL.Path) ∨
      (q.PathRegex ≠ "" ∧ ∃ re, lib.regexpCompile q.PathRegex = .ok re ∧
        lib.matchString re req.URL.Path = true)) ∧
    (q.Path = "" →
      (q.isMatch lib req = true ↔
        (q.PathRegex ≠ "" ∧ ∃ re, lib.regexpCompile q.PathRegex = .ok re ∧
          lib.matchString re req.URL.Path = true))) := by
  obtain ⟨_, hreg, _⟩ := compile_ok_spec lib p q h
  obtain ⟨hsome, hnone⟩ := compile_ok_pathRegex lib p q h
  have hiff : q.isMatch lib req = true ↔
      (q.Path ≠ "" ∧ q.Path = req.URL.Path) ∨
      (q.PathRegex ≠ "" ∧ ∃ re, lib.regexpCompile q.PathRegex = .ok re ∧
        lib.matchString re req.URL.Path = true) := by
    unfold Path.isMatch
    rw [hreg]
    by_cases hr : p.PathRegex = ""
    · rw [hnone hr, hraw]
      simp [hr]
    · obtain ⟨re, hre, hq⟩ := hsome hr
      rw [hq, hre]
      simp [hr]
  refine ⟨hiff, fun hpath => ?_⟩
  rw [hiff]
  constructor
  · rintro (⟨hne, _⟩ | hpat)
    · exact absurd hpath hne
    · exact hpat
  · exact Or.inr

/-- C16, at `twoMatchers`, with path "/a" and pattern "^/b": the compiled rule matches "/bc"
through its pattern, "/a" through its path, and neither "/c" nor "/A". -/
theorem isMatch_compiled_witness :
    Fragment.twoMatchers.compile Fragment.lib = .ok Fragment.twoMatchersCompiled ∧
    Fragment.twoMatchersCompiled.isMatch Fragment.lib (Fragment.get "/bc") = true ∧
    Fragment.twoMatchersCompiled.isMatch Fragment.lib (Fragment.get "/a") = true ∧
    Fragment.twoMatchersCompiled.isMatch Fragment.lib (Fragment.get "/c") = false ∧
    Fragment.twoMatchersCompiled.isMatch Fragment.lib (Fragment.get "/A") = false :=
  have h := isMatch_compiled Fragment.lib Fragment.twoMatchers Fragment.twoMatchersCompiled
    (Fragment.get "/bc") rfl rfl
  ⟨rfl, h.1.mpr (Or.inr ⟨by decide, _, rfl, rfl⟩), rfl, rfl, rfl⟩

/-- C17. Renderer invariant: every rule of a handler returned by `New` has stored JSON bytes
that are non-empty or a parsed template, and, the unexported `pathRegex` of the configured
rules being unset, a compiled pattern exactly when its `PathRegex` is non-empty. So
`ServeHTTP` never aborts on a nil template, whatever the request: each of its calls is a
call on the response writer or the call of the next handler. -/
theorem New_renderer_invariant (lib : Lib A R T) (next : Handler) (config : Config A R T)
    (name : String) (a : StaticResponse A R T)
    (hnew : New lib next config name = .ok a)
    (hraw : ∀ p ∈ config.Paths, p.pathRegex = none) :
    (∀ q ∈ a.paths,
      (q.jsonData.length > 0 ∨ ∃ t, q.template = some t) ∧
      ((∃ re, q.pathRegex = some re) ↔ q.PathRegex ≠ "")) ∧
    (∀ req, ∀ e ∈ a.ServeHTTP lib req, (∀ msg, e ≠ Effect.Abort msg) ∧
      (e.isSink = true ∨ e = Effect.Next req)) := by
  obtain ⟨_, hps, _, _⟩ := New_ok lib next config name a hnew
  have hall := compilePaths_ok lib _ _ hps
  have hrender := New_ok_renderer lib next config name a hnew
  constructor
  · intro q hq
    refine ⟨hrender q hq, ?_⟩
    obtain ⟨p, hp, hc⟩ := forall₂_right_mem hall q hq
    obtain ⟨_, hreg, _⟩ := compile_ok_spec lib p q hc
    obtain ⟨hsome, hnone⟩ := compile_ok_pathRegex lib p q hc
    rw [hreg]
    constructor
    · rintro ⟨re, hre⟩ hempty
      rw [hnone hempty, hraw p hp] at hre
      cases hre
    · intro hne
      obtain ⟨re, _, hq2⟩ := hsome hne
      exact ⟨re, hq2⟩
  · intro req e he
    have hcases : e.isSink = true ∨ e = Effect.Next req := by
      rcases servePaths_mem lib req a.paths e he with h | ⟨q, hq, hqe⟩
      · exact Or.inr h
      · exact Or.inl (respond_isSink lib q req (hrender q hq) e hqe)
    refine ⟨?_, hcases⟩
    intro msg hmsg
    subst hmsg
    rcases hcases with h | h
    · cases h
    · cases h

/-- C17, at the handler of `overlapConfig`. -/
theorem New_renderer_invariant_witness :
    New Fragment.lib Fragment.noop Fragment.overlapConfig "static" = .ok Fragment.overlapHandler ∧
    (∀ p ∈ Fragment.overlapConfig.Paths, p.pathRegex = none) ∧
    (∀ q ∈ Fragment.overlapHandler.paths,
      (q.jsonData.length > 0 ∨ ∃ t, q.template = some t) ∧
      ((∃ re, q.pathRegex = some re) ↔ q.PathRegex ≠ "")) ∧
    Fragment.overlapHandler.paths.map (fun q => (q.template.isSome, q.pathRegex.isSome)) =
      [(true, false), (true, true)] :=
  have hraw : ∀ p ∈ Fragment.overlapConfig.Paths, p.pathRegex = none := by
    intro p hp
    simp only [Fragment.overlapConfig, List.mem_cons, List.mem_singleton, List.not_mem_nil,
      or_false] at hp
    rcases hp with rfl | rfl <;> rfl
  ⟨rfl, hraw,
   (New_renderer_invariant Fragment.lib Fragment.noop Fragment.overlapConfig "static"
      Fragment.overlapHandler rfl hraw).1,
   rfl⟩

/-- C18, at `negativeIndentConfig`: the rule has JSON data and indent -1; `New` neither
returns a handler nor an error, it aborts in `strings.Repeat`. -/
theorem New_negative_indent_aborts :
    New Fragment.lib Fragment.noop Fragment.negativeIndentConfig "static" =
      .panic "strings: negative Repeat count" ∧
    (New Fragment.lib Fragment.noop Fragment.negativeIndentConfig "static").isPanic = true ∧
    (New Fragment.lib Fragment.noop Fragment.negativeIndentConfig "static").value? = none ∧
    (New Fragment.lib Fragment.noop Fragment.negativeIndentConfig "static").error? = none ∧
    Repeat " " (-1) = .panic "strings: negative Repeat count" :=
  ⟨rfl, rfl, rfl, rfl, rfl⟩

/-- C19. `New` leaves the configuration of the caller unchanged: on the memory of the
caller, the loop writes to its own variable `p` and to the new slice only, so after the
call, whatever it returns, the configuration is the one before the call, rule by rule and
field by field; what the call returns is what `New` returns; and calling it again on the
configuration it left returns the same. -/
theorem New_leaves_config (lib : Lib A R T) (next : Handler) (config : Config A R T)
    (name : String) :
    (NewOnMemory lib next config name).1 = config ∧
    (NewOnMemory lib next config name).2 = New lib next config name ∧
    (NewOnMemory lib next (NewOnMemory lib next config name).1 name).2 =
      (NewOnMemory lib next config name).2 := by
  have h1 : (NewOnMemory lib next config name).1 = config := by
    unfold NewOnMemory
    split
    · rfl
    · have hcfg := newLoop_configPaths lib config.Paths.length 0
        { configPaths := config.Paths, p := {},
          paths := List.replicate config.Paths.length {} }
      simp only at hcfg ⊢
      split <;> rename_i heq <;> rw [heq] at hcfg <;> simp only at hcfg <;> rw [hcfg]
  have h2 : (NewOnMemory lib next config name).2 = New lib next config name := by
    unfold NewOnMemory New
    split
    · rfl
    · obtain ⟨hok, herr, hpanic⟩ := newLoop_compilePaths lib config.Paths.length 0
        { configPaths := config.Paths, p := {},
          paths := List.replicate config.Paths.length {} }
        (by simp) (by simp)
      simp only [List.drop_zero, List.take_zero, List.nil_append] at hok herr hpanic ⊢
      cases hc : compilePaths lib config.Paths with
      | ok qs =>
        obtain ⟨hr, hp⟩ := hok qs hc
        split <;> rename_i heq <;> rw [heq] at hr hp <;> simp only at hr hp
        · rw [hp]
        · cases hr
        · cases hr
      | error msg =>
        have hr := herr msg hc
        split <;> rename_i heq <;> rw [heq] at hr <;> simp only at hr
        · cases hr
        · cases hr; rfl
        · cases hr
      | panic msg =>
        have hr := hpanic msg hc
        split <;> rename_i heq <;> rw [heq] at hr <;> simp only at hr
        · cases hr
        · cases hr
        · cases hr; rfl
  exact ⟨h1, h2, by rw [h1]⟩

end StaticResponsePlugin
